import Mathlib

/-!
Verification development for the SENTRY repository (a TypeScript
"hypothesize, then prove" smart-contract audit pipeline).

The embedding models strings as `List Char` (JavaScript strings are
sequences of UTF-16 code units; all constants in this code base are
ASCII, so `List Char` is a faithful carrier).  External effects
(child processes, the filesystem, AI providers, `JSON.parse`) are
modelled as explicit inputs to the functions that consume them; the
pure computations of the source (marker classification, import
sanitization, log assembly, response validation, the model fallback
loop, exploit rendering, the orchestrator's verdict reduction) are
translated function by function from the TypeScript source.

The sanitizer's regular expressions are multiline-anchored (`^...$`
with the `m` flag), but JS `\s`, `[^}]` and `[^"']` all match `'\n'`,
so a single match may span line breaks.  `sanitizeImportsJS` models
the complete `String.replace` global-regex scan; the `parse*Line` /
`sanitizeImports` family is its restriction to line-local matches and
is exact on the single-line inputs where it is used.  String
replacements passed to `String.replace` as strings (the harness
injection) are modelled with JS `$`-substitution (`getSubstitution`);
the sanitizer's replacements are produced by replacer FUNCTIONS, to
which no `$`-substitution applies.
-/

namespace SENTRY

/-! ## Basic character/list utilities (JS string primitives) -/

/-- JavaScript `\s` (whitespace class), restricted to the ASCII range
that can occur in this code base. -/
def jsSpace (c : Char) : Bool :=
  c = ' ' || c = '\t' || c = '\n' || c = '\r' || c = '\x0c' || c = '\x0b'

/-- JS `String.prototype.toLowerCase`, per character (ASCII). -/
def lowerCh (c : Char) : Char := c.toLower

/-- Lowercases a JS string. -/
def lowerStr (s : List Char) : List Char := s.map lowerCh

/-- Boolean "the first list is a prefix of the second". -/
def isPrefCh : List Char → List Char → Bool
  | [], _ => true
  | _ :: _, [] => false
  | a :: as, b :: bs => a == b && isPrefCh as bs

/-- Boolean "the first list occurs as a contiguous substring of the
second" — JS `String.prototype.includes` / an unanchored literal
regex `test`. -/
def isInfCh (p : List Char) : List Char → Bool
  | [] => isPrefCh p []
  | b :: bs => isPrefCh p (b :: bs) || isInfCh p bs

/-- JS `String.prototype.trim` (strip `\s` from both ends). -/
def trimCh (s : List Char) : List Char :=
  ((s.dropWhile jsSpace).reverse.dropWhile jsSpace).reverse

/-- Splits a string into its lines at `'\n'`; `splitLines s` always has
`(count of newlines) + 1` elements, mirroring JS `s.split('\n')`. -/
def splitLines : List Char → List (List Char)
  | [] => [[]]
  | c :: cs =>
    if c = '\n' then [] :: splitLines cs
    else
      match splitLines cs with
      | [] => [[c]]
      | l :: ls => (c :: l) :: ls

/-- Joins lines with `'\n'` — JS `Array.prototype.join('\n')`. -/
def joinLines : List (List Char) → List Char
  | [] => []
  | [l] => l
  | l :: ls => l ++ '\n' :: joinLines ls

/-- Model of the `GetSubstitution` step of JS `String.prototype.replace`
with a STRING replacement.  Inside the replacement text, `$$` yields a
single `$`, `$&` yields the matched text, a dollar followed by a
backquote (character 96) yields the portion of the subject before the
match, `$'` the portion after it; every other `$`-sequence is copied
literally (the patterns at the call sites of this code base have no
capture groups, so `$1`... stay literal as well). -/
def getSubstitution (matched before after : List Char) : List Char → List Char
  | [] => []
  | c :: rest =>
    if c = '$' then
      match rest with
      | [] => ['$']
      | d :: rest2 =>
        if d = '$' then '$' :: getSubstitution matched before after rest2
        else if d = '&' then matched ++ getSubstitution matched before after rest2
        else if d = Char.ofNat 96 then before ++ getSubstitution matched before after rest2
        else if d = '\'' then after ++ getSubstitution matched before after rest2
        else '$' :: getSubstitution matched before after (d :: rest2)
    else c :: getSubstitution matched before after rest

/-- Worker for `replaceOnceSubst`: `seen` holds the already-scanned
prefix of the subject in reverse, so that the `GetSubstitution`
context (the text before and after the match) is available at the
match site. -/
def replaceOnceSubstAux (pat repl seen : List Char) : List Char → List Char
  | [] => []
  | c :: cs =>
    if isPrefCh pat (c :: cs) then
      getSubstitution pat seen.reverse ((c :: cs).drop pat.length) repl ++
        (c :: cs).drop pat.length
    else c :: replaceOnceSubstAux pat repl (c :: seen) cs

/-- JS `String.prototype.replace` with a literal (non-global) string
pattern and a STRING replacement: replaces the first occurrence,
applying `$`-substitution to the replacement.  (All patterns used in
the source are nonempty.) -/
def replaceOnceSubst (pat repl l : List Char) : List Char :=
  replaceOnceSubstAux pat repl [] l

/-- Worker for `replaceAllSubst`; `seen` as in `replaceOnceSubstAux`.
For a literal pattern the matched text of each occurrence is the
pattern itself. -/
def replaceAllSubstAux (pat repl seen l : List Char) : List Char :=
  match l with
  | [] => []
  | c :: cs =>
    if 0 < pat.length ∧ isPrefCh pat (c :: cs) = true then
      getSubstitution pat seen.reverse ((c :: cs).drop pat.length) repl ++
        replaceAllSubstAux pat repl (pat.reverse ++ seen) ((c :: cs).drop pat.length)
    else c :: replaceAllSubstAux pat repl (c :: seen) cs
termination_by l.length
decreasing_by
  · simp only [List.length_drop, List.length_cons]
    omega
  · simp only [List.length_cons]
    omega

/-- JS `String.prototype.replace` with a global literal regex and a
STRING replacement: replaces every non-overlapping occurrence,
scanning left to right, applying `$`-substitution per occurrence. -/
def replaceAllSubst (pat repl l : List Char) : List Char :=
  replaceAllSubstAux pat repl [] l

/-! ## Data model (`src/backend/src/types.ts`, as used by the engine) -/

/-- The vulnerability-type enum of `VulnerabilityHypothesis`. -/
inductive VulnType
  | ACCESS_CONTROL | REENTRANCY | OVERFLOW | OTHER
deriving DecidableEq, Repr

/-- Model of `VulnerabilityHypothesis` (confidence is a JS number; all values
this pipeline validates and embeds are integers). -/
structure VulnerabilityHypothesis where
  target : List Char
  vulnerabilityType : VulnType
  confidence : Int
  reasoning : List Char
deriving DecidableEq, Repr

/-- Model of `VerificationResult.verdict`.  `CRITICAL_VULNERABILITY_FOUND` is a
member of the union handled by `getVerificationSummary` and the
orchestrator, though `runExploitTest` never produces it. -/
inductive Verdict
  | VULNERABILITY_CONFIRMED | FALSE_POSITIVE | INCONCLUSIVE
  | COMPILATION_FAILED | CRITICAL_VULNERABILITY_FOUND
deriving DecidableEq, Repr

/-- Model of `VerificationResult`, minus the wall-clock fields (`durationMs`
is real time and is not modelled). -/
structure VerificationResult where
  verdict : Verdict
  targetFunction : List Char
  exploitSucceeded : Bool
  testOutput : List Char
deriving DecidableEq, Repr

/-- The terminal verdict of one audit request (`AuditResult.verdict`). -/
inductive AuditVerdict
  | SECURE | CRITICAL | UNKNOWN | ERROR
deriving DecidableEq, Repr

/-! ## Exploit verifier: output classification
(`src/backend/src/engine/verifier.ts`, `runExploitTest`)

`execAsync(command)` either resolves with `{stdout, stderr}` (exit
code 0) or throws an error carrying the captured `stdout`/`stderr`
and a `message`.  This external outcome is the model's input. -/

/-- Outcome of the `forge test` child process as `execAsync` reports
it: `ok` on exit code 0, `thrown` on a non-zero exit, kill or spawn
failure (the error object carries any captured output). -/
inductive ExecResult
  | ok (stdout stderr : List Char)
  | thrown (stdout stderr message : List Char)
deriving DecidableEq, Repr

/-- The exploit marker scanned for in the test output. -/
def EXPLOIT_MARKER : List Char := "EXPLOIT SUCCEEDED".data

/-- verifier.ts lines 303-324: classification of a run that resolved
normally, a pure function of the combined `stdout + '\n' + stderr`. -/
def classifyOutput (output : List Char) : Verdict :=
  let exploitSucceeded := isInfCh EXPLOIT_MARKER output
  let testPassed := isInfCh "[PASS]".data output
  let testFailed := isInfCh "[FAIL]".data output
  -- the second disjunct of the source's first condition is redundant
  -- (`testFailed && output.includes('EXPLOIT SUCCEEDED')`) and is kept
  -- verbatim
  if exploitSucceeded || (testFailed && isInfCh EXPLOIT_MARKER output) then
    .VULNERABILITY_CONFIRMED
  else if testFailed && !isInfCh EXPLOIT_MARKER output then
    .FALSE_POSITIVE
  else if testPassed then
    .INCONCLUSIVE
  else if isInfCh "compil".data (lowerStr output) &&
      isInfCh "error".data (lowerStr output) then
    .COMPILATION_FAILED
  else
    .INCONCLUSIVE

/-- verifier.ts lines 334-357: the `catch` branch.  The message used
for classification is the captured partial output when nonempty,
otherwise the exception message; classification is the cruder
`compil`/`error` text search. -/
def classifyThrown (stdout stderr message : List Char) : Verdict :=
  let detailedError := stdout ++ '\n' :: stderr
  let errorMessage :=
    if 0 < (trimCh detailedError).length then detailedError else message
  if isInfCh "compil".data (lowerStr errorMessage) ||
      isInfCh "error".data (lowerStr errorMessage) then
    .COMPILATION_FAILED
  else
    .INCONCLUSIVE

/-- The `testOutput` field returned by the `catch` branch. -/
def thrownTestOutput (stdout stderr message : List Char) : List Char :=
  let detailedError := stdout ++ '\n' :: stderr
  if 0 < (trimCh detailedError).length then detailedError else message

/-- Model of `runExploitTest`, as a function of the hypothesis and of the
toolchain outcome (platform command selection does not affect the
returned result and is elided). -/
def runExploitTest (h : VulnerabilityHypothesis) (e : ExecResult) :
    VerificationResult :=
  match e with
  | .ok stdout stderr =>
    let output := stdout ++ '\n' :: stderr
    { verdict := classifyOutput output
      targetFunction := h.target
      exploitSucceeded := isInfCh EXPLOIT_MARKER output
      testOutput := output }
  | .thrown stdout stderr message =>
    { verdict := classifyThrown stdout stderr message
      targetFunction := h.target
      exploitSucceeded := false
      testOutput := thrownTestOutput stdout stderr message }

/-! ## Sanitizer (`src/backend/src/engine/sanitizer.ts`)

`sanitizeImports` rewrites the source with two multiline-anchored
global regex replacements (`IMPORT_PATTERN`, then
`ALIASED_IMPORT_PATTERN`).  The `parse*Line` definitions here embed
the two patterns restricted to a single line; the full scan semantics
— under which a match may span line breaks, since `\s` matches `'\n'`
— is modelled by `matchPlainHere` / `matchAliasedHere` /
`sanitizeImportsJS` further below. -/

/-- Consumes a literal from the front of the input,
or fails. -/
def expectLit : List Char → List Char → Option (List Char)
  | [], rest => some rest
  | _ :: _, [] => none
  | a :: as, b :: bs => if a == b then expectLit as bs else none

/-- A quote character, `["']` in the regexes. -/
def isQuote (c : Char) : Bool := c = '"' || c = '\''

/-- Parses `(\s*)import\s+` — leading whitespace, the literal
`import`, at least one whitespace character — returning the captured
leading whitespace and the rest of the line. -/
def parseWsImport (l : List Char) : Option (List Char × List Char) :=
  let ws := l.takeWhile jsSpace
  let r1 := l.dropWhile jsSpace
  match expectLit "import".data r1 with
  | none => none
  | some r2 =>
    let sp := r2.takeWhile jsSpace
    let r3 := r2.dropWhile jsSpace
    if sp.isEmpty then none else some (ws, r3)

/-- Parses `["']([^"']+)["']` — a quoted, nonempty import path.  As in
the regex, the closing quote need not match the opening one.  Returns
the captured path and the rest of the line. -/
def parseQuotedPath (r : List Char) : Option (List Char × List Char) :=
  match r with
  | [] => none
  | q :: r1 =>
    if isQuote q then
      let p := r1.takeWhile (fun c => !isQuote c)
      let r2 := r1.dropWhile (fun c => !isQuote c)
      if p.isEmpty then none
      else
        match r2 with
        | [] => none
        | _ :: r3 => some (p, r3)
    else none

/-- Parses `\{[^}]*\}\s+from\s+` — the named-import clause of
`IMPORT_PATTERN`'s first alternative. -/
def parseBracesFrom (r : List Char) : Option (List Char) :=
  match r with
  | '{' :: r1 =>
    let r2 := r1.dropWhile (fun c => c ≠ '}')
    match r2 with
    | '}' :: r3 =>
      let sp1 := r3.takeWhile jsSpace
      let r4 := r3.dropWhile jsSpace
      if sp1.isEmpty then none
      else
        match expectLit "from".data r4 with
        | none => none
        | some r5 =>
          let sp2 := r5.takeWhile jsSpace
          let r6 := r5.dropWhile jsSpace
          if sp2.isEmpty then none else some r6
    | _ => none
  | _ => none

/-- Parses the tail `\s*;?\s*$` of `IMPORT_PATTERN`: optional
whitespace, optional semicolon, optional whitespace, end of line. -/
def plainTailOk (rest : List Char) : Bool :=
  match rest.dropWhile jsSpace with
  | [] => true
  | ';' :: r2 => (r2.dropWhile jsSpace).isEmpty
  | _ => false

/-- Parses the tail `\s+as\s+\w+\s*;?\s*$` of
`ALIASED_IMPORT_PATTERN`. -/
def aliasedTailOk (rest : List Char) : Bool :=
  let sp := rest.takeWhile jsSpace
  match sp.isEmpty, rest.dropWhile jsSpace with
  | false, 'a' :: 's' :: r2 =>
    let sp2 := r2.takeWhile jsSpace
    let r3 := r2.dropWhile jsSpace
    let w := r3.takeWhile (fun c => c.isAlphanum || c = '_')
    let r4 := r3.dropWhile (fun c => c.isAlphanum || c = '_')
    !sp2.isEmpty && !w.isEmpty && plainTailOk r4
  | _, _ => false

/-- The optional named-import clause `(?:\{[^}]*\}\s+from\s+)?`: when
the text after `import\s+` starts with `{` the clause must parse;
otherwise it is absent and the text is left as is. -/
def parseOptionalBraces (r : List Char) : Option (List Char) :=
  if r.head? = some '{' then parseBracesFrom r else some r

/-- Model of `IMPORT_PATTERN` restricted to one line:
`^(\s*)import\s+(?:(?:\{[^}]*\}\s+from\s+)?["']([^"']+)["']|["']([^"']+)["'])\s*;?\s*$`.
Returns the captured leading whitespace and import path.  The
source's "malformed import" branch (no captured path) is unreachable:
`[^"']+` guarantees a nonempty capture whenever the pattern matches. -/
def parseImportLine (l : List Char) : Option (List Char × List Char) :=
  match parseWsImport l with
  | none => none
  | some (ws, r) =>
    match parseOptionalBraces r with
    | none => none
    | some r2 =>
      match parseQuotedPath r2 with
      | none => none
      | some (p, rest) => if plainTailOk rest then some (ws, p) else none

/-- Model of `ALIASED_IMPORT_PATTERN` restricted to one line:
`^(\s*)import\s+["']([^"']+)["']\s+as\s+\w+\s*;?\s*$`. -/
def parseAliasedLine (l : List Char) : Option (List Char × List Char) :=
  match parseWsImport l with
  | none => none
  | some (ws, r) =>
    match parseQuotedPath r with
    | none => none
    | some (p, rest) => if aliasedTailOk rest then some (ws, p) else none

/-- Model of `ImportMapping`. -/
structure ImportMapping where
  original : List Char
  mocked : List Char
deriving DecidableEq, Repr

/-- Model of `SanitizerResult`. -/
structure SanitizerResult where
  code : List Char
  remappedImports : List ImportMapping
  removedImports : List (List Char)
  success : Bool
deriving DecidableEq, Repr

/-- Model of `IMPORT_WHITELIST`: the ordered `(pattern, mockPath)` table.  Each
pattern is a literal regex tested unanchored against the import path
(`pattern.test(importPath)`), i.e. a substring test. -/
def IMPORT_WHITELIST : List (List Char × List Char) :=
  [ ("@openzeppelin/contracts/access/Ownable.sol".data,
     "mocks/Ownable.sol".data),
    ("@openzeppelin/contracts-upgradeable/access/OwnableUpgradeable.sol".data,
     "mocks/Ownable.sol".data),
    ("@openzeppelin/contracts/token/ERC20/IERC20.sol".data,
     "mocks/IERC20.sol".data),
    ("@openzeppelin/contracts/token/ERC20/ERC20.sol".data,
     "mocks/ERC20.sol".data),
    ("@openzeppelin/contracts/token/ERC20/extensions/IERC20Metadata.sol".data,
     "mocks/IERC20.sol".data),
    ("@openzeppelin/contracts-upgradeable/token/ERC20/IERC20Upgradeable.sol".data,
     "mocks/IERC20.sol".data),
    ("@openzeppelin/contracts/token/ERC20/utils/SafeERC20.sol".data,
     "mocks/IERC20.sol".data) ]

/-- First-matching-pattern lookup over `IMPORT_WHITELIST`. -/
def whitelistLookup (p : List Char) : Option (List Char) :=
  (IMPORT_WHITELIST.find? (fun pr => isInfCh pr.1 p)).map (·.2)

/-- The replacement for a whitelisted import:
`` `${leadingWhitespace}import "${mockPath}";` ``. -/
def mockImportLine (ws mock : List Char) : List Char :=
  ws ++ "import \"".data ++ mock ++ "\";".data

/-- The replacement for a non-whitelisted import:
`` `${leadingWhitespace}// IMPORT REMOVED BY SENTRY SANITIZER: ${importPath}` ``. -/
def removalComment (ws p : List Char) : List Char :=
  ws ++ "// IMPORT REMOVED BY SENTRY SANITIZER: ".data ++ p

/-- One line of the first replacement pass: the rewritten line, the
`remappedImports` entries pushed, and the `removedImports` entries
pushed. -/
def processPlainLine (l : List Char) :
    List Char × List ImportMapping × List (List Char) :=
  match parseImportLine l with
  | none => (l, [], [])
  | some (ws, p) =>
    match whitelistLookup p with
    | some mock => (mockImportLine ws mock, [⟨p, mock⟩], [])
    | none => (removalComment ws p, [], [p])

/-- One line of the second (aliased) replacement pass. -/
def processAliasedLine (l : List Char) :
    List Char × List ImportMapping × List (List Char) :=
  match parseAliasedLine l with
  | none => (l, [], [])
  | some (ws, p) =>
    match whitelistLookup p with
    | some mock => (mockImportLine ws mock, [⟨p, mock⟩], [])
    | none => (removalComment ws p, [], [p])

/-- Runs one replacement pass over all lines, concatenating the pushed
entries in line order. -/
def runPass (f : List Char → List Char × List ImportMapping × List (List Char))
    (ls : List (List Char)) :
    List (List Char) × List ImportMapping × List (List Char) :=
  (ls.map (fun l => (f l).1),
   (ls.map (fun l => (f l).2.1)).flatten,
   (ls.map (fun l => (f l).2.2)).flatten)

/-- Line-restricted model of `sanitizeImports` (matches confined to
single lines): the plain-import pass, then the aliased-import pass
over its output; entries of the second pass are pushed after those of
the first, and `success` is always `true`.  `sanitizeImportsJS` below
models the function under full JS regex semantics, where a match may
span line breaks; the restriction is exact on the single-line inputs
on which it is evaluated (the C2 and C3 counterexamples). -/
def sanitizeImports (code : List Char) : SanitizerResult :=
  let ls := splitLines code
  let r1 := runPass processPlainLine ls
  let r2 := runPass processAliasedLine r1.1
  { code := joinLines r2.1
    remappedImports := r1.2.1 ++ r2.2.1
    removedImports := r1.2.2 ++ r2.2.2
    success := true }

/-- The four known-untrusted dependency prefixes of
`validateSanitizedCode`'s `externalImportPattern`
(`/@openzeppelin|@chainlink|@uniswap|hardhat/i`). -/
def untrustedPatterns : List (List Char) :=
  ["@openzeppelin".data, "@chainlink".data, "@uniswap".data, "hardhat".data]

/-- The case-insensitive untrusted-prefix test performed by
`validateSanitizedCode`. -/
def containsUntrusted (code : List Char) : Bool :=
  untrustedPatterns.any (fun p => isInfCh p (lowerStr code))

/-- Model of `validateSanitizedCode`: rejects code still containing an
untrusted prefix; the inline-assembly check only logs and never
affects the result. -/
def validateSanitizedCode (code : List Char) : Bool :=
  if containsUntrusted code then false else true

/-! ### Full JS regex semantics for `sanitizeImports`

The two import patterns carry the `g` and `m` flags: `^` and `$` match
at line boundaries, but `\s`, `[^}]` and `[^"']` all match `'\n'`, so
one match may SPAN line breaks (an `import` keyword on one line with
its quoted path on the next, a path containing a newline, or a
trailing `\s*` absorbing following whitespace-only lines).  The
`parse*Line` family above is the restriction of the patterns to
single-line matches; the definitions below model the complete
scan-and-splice behaviour of `String.prototype.replace` with a global
regex and a replacer function, and `sanitizeImportsJS` is the faithful
model of the source's `sanitizeImports`.  Every regex component is
deterministic maximal-munch (each backtracking opportunity ends at a
character that can never satisfy the next pattern element) except the
trailing `\s*;?\s*$`, whose backtracking order is implemented in
`reTail`. -/

/-- One match of an import pattern: the captured leading whitespace,
the captured path, and the full matched text (the replacer callback's
`match` argument). -/
structure RegexMatch where
  ws : List Char
  path : List Char
  matched : List Char
deriving DecidableEq, Repr

/-- Splits a whitespace run at its LAST `'\n'`: `some (pre, post)`
with `pre ++ post = w` and `post` beginning at that newline, `none`
when `w` has none.  The backtracking of the trailing `\s*;?\s*$`
accepts the latest position inside a whitespace run at which `$`
holds, i.e. the position of the run's last newline. -/
def splitAtLastNl : List Char → Option (List Char × List Char)
  | [] => none
  | c :: cs =>
    match splitAtLastNl cs with
    | some (pre, post) => some (c :: pre, post)
    | none => if c = '\n' then some ([], c :: cs) else none

/-- The trailing `\s*;?\s*$` of both import patterns under `m`-flag
semantics (`$` is end of input or just before `'\n'`).  In the
engine's backtracking order: consume all whitespace, an optional `';'`
and all further whitespace when that reaches the end of input;
otherwise stop just before the last newline of the whitespace run
after the `';'`; otherwise just before the last newline of the run
before it; otherwise fail.  Returns `(consumed, rest)`. -/
def reTail (t : List Char) : Option (List Char × List Char) :=
  let w1 := t.takeWhile jsSpace
  let r1 := t.dropWhile jsSpace
  let fallback : Option (List Char × List Char) :=
    match splitAtLastNl w1 with
    | some (pre, post) => some (pre, post ++ r1)
    | none => none
  match r1 with
  | [] => some (w1, [])
  | ';' :: r2 =>
    let w2 := r2.takeWhile jsSpace
    let r3 := r2.dropWhile jsSpace
    match r3 with
    | [] => some (w1 ++ ';' :: w2, [])
    | _ =>
      match splitAtLastNl w2 with
      | some (pre, post) => some (w1 ++ ';' :: pre, post ++ r3)
      | none => fallback
  | _ => fallback

/-- The quoted-path component `["']([^"']+)["']`: an opening quote, a
nonempty run of non-quote characters (possibly spanning newlines), and
a closing quote of either kind.  Returns the quotes, the captured
path, and the rest. -/
def reQuoted (r : List Char) : Option (Char × List Char × Char × List Char) :=
  match r with
  | [] => none
  | q1 :: r1 =>
    if isQuote q1 then
      let p := r1.takeWhile (fun c => !isQuote c)
      match r1.dropWhile (fun c => !isQuote c) with
      | [] => none
      | q2 :: r3 => if p.isEmpty then none else some (q1, p, q2, r3)
    else none

/-- The named-import clause `\{[^}]*\}\s+from\s+` of `IMPORT_PATTERN`
with `[^}]*` stopping at the first `'}'` (newlines included) and both
`\s+` runs nonempty.  Returns `(consumed, rest)`. -/
def reBraces (r : List Char) : Option (List Char × List Char) :=
  match r with
  | '{' :: r1 =>
    let inner := r1.takeWhile (fun c => c ≠ '}')
    match r1.dropWhile (fun c => c ≠ '}') with
    | '}' :: r3 =>
      let sp1 := r3.takeWhile jsSpace
      let r4 := r3.dropWhile jsSpace
      if sp1.isEmpty then none
      else
        match expectLit "from".data r4 with
        | none => none
        | some r5 =>
          let sp2 := r5.takeWhile jsSpace
          let r6 := r5.dropWhile jsSpace
          if sp2.isEmpty then none
          else some ('{' :: inner ++ '}' :: sp1 ++ "from".data ++ sp2, r6)
    | _ => none
  | _ => none

/-- The optional group `(?:\{[^}]*\}\s+from\s+)?`: with `'{'` ahead
the engine must complete the braces clause (the group-absent
alternative would need a quote at that same `'{'`), otherwise the
group is skipped. -/
def reOptionalBraces (r : List Char) : Option (List Char × List Char) :=
  if r.head? = some '{' then reBraces r else some ([], r)

/-- Matcher for `IMPORT_PATTERN` at one position, which the caller
guarantees to be a `^` boundary.  Returns the match data and the rest
of the subject after the match. -/
def matchPlainHere (t : List Char) : Option (RegexMatch × List Char) :=
  let ws := t.takeWhile jsSpace
  let r1 := t.dropWhile jsSpace
  match expectLit "import".data r1 with
  | none => none
  | some r2 =>
    let sp := r2.takeWhile jsSpace
    let r3 := r2.dropWhile jsSpace
    if sp.isEmpty then none
    else
      match reOptionalBraces r3 with
      | none => none
      | some (btxt, r4) =>
        match reQuoted r4 with
        | none => none
        | some (q1, p, q2, r5) =>
          match reTail r5 with
          | none => none
          | some (tl, rest) =>
            some (⟨ws, p,
              ws ++ "import".data ++ sp ++ btxt ++ q1 :: p ++ q2 :: tl⟩, rest)

/-- JS `\w`, the class `[A-Za-z0-9_]`. -/
def wordChar (c : Char) : Bool := c.isAlphanum || c = '_'

/-- Matcher for `ALIASED_IMPORT_PATTERN` at one `^` boundary. -/
def matchAliasedHere (t : List Char) : Option (RegexMatch × List Char) :=
  let ws := t.takeWhile jsSpace
  let r1 := t.dropWhile jsSpace
  match expectLit "import".data r1 with
  | none => none
  | some r2 =>
    let sp := r2.takeWhile jsSpace
    let r3 := r2.dropWhile jsSpace
    if sp.isEmpty then none
    else
      match reQuoted r3 with
      | none => none
      | some (q1, p, q2, r4) =>
        let sp1 := r4.takeWhile jsSpace
        let r5 := r4.dropWhile jsSpace
        if sp1.isEmpty then none
        else
          match expectLit "as".data r5 with
          | none => none
          | some r6 =>
            let sp2 := r6.takeWhile jsSpace
            let r7 := r6.dropWhile jsSpace
            if sp2.isEmpty then none
            else
              let w := r7.takeWhile wordChar
              let r8 := r7.dropWhile wordChar
              if w.isEmpty then none
              else
                match reTail r8 with
                | none => none
                | some (tl, rest) =>
                  some (⟨ws, p,
                    ws ++ "import".data ++ sp ++ q1 :: p ++ q2 :: sp1 ++
                      "as".data ++ sp2 ++ w ++ tl⟩, rest)

/-- The replacer callback shared by both passes: a whitelisted path
becomes a mock import line, any other path a removal comment; one
`remappedImports` or `removedImports` entry is pushed per call.  (The
`!importPath` branch of the first callback is unreachable: the path
capture `[^"']+` is nonempty whenever the pattern matches.) -/
def importReplacement (m : RegexMatch) :
    List Char × List ImportMapping × List (List Char) :=
  match whitelistLookup m.path with
  | some mock => (mockImportLine m.ws mock, [⟨m.path, mock⟩], [])
  | none => (removalComment m.ws m.path, [], [m.path])

/-- The outcome of one global-replace pass: the spliced output, the
entries pushed by the callback, and the matches in scan order. -/
structure PassResult where
  out : List Char
  remapped : List ImportMapping
  removed : List (List Char)
  found : List RegexMatch
deriving DecidableEq, Repr

/-- Worker for `scanReplace`, structural in a fuel so that it
evaluates in the kernel; `prev` is the character before the current
position (`none` at the very start), determining `^`.  After a match
the scan resumes immediately after it — `String.replace` collects
matches over its original subject and never rescans a splice.  Each
step consumes at least one character, so fuel `t.length` is never
exhausted (a fuel-out step copies the remaining text unchanged). -/
def scanReplaceFuel (mh : List Char → Option (RegexMatch × List Char)) :
    Nat → List Char → Option Char → PassResult
  | 0, t, _ => ⟨t, [], [], []⟩
  | fuel + 1, t, prev =>
    match t with
    | [] => ⟨[], [], [], []⟩
    | c :: cs =>
      if prev = none ∨ prev = some '\n' then
        match mh (c :: cs) with
        | some (m, rest) =>
          let rep := importReplacement m
          let r := scanReplaceFuel mh fuel rest m.matched.getLast?
          ⟨rep.1 ++ r.out, rep.2.1 ++ r.remapped, rep.2.2 ++ r.removed,
            m :: r.found⟩
        | none =>
          let r := scanReplaceFuel mh fuel cs (some c)
          ⟨c :: r.out, r.remapped, r.removed, r.found⟩
      else
        let r := scanReplaceFuel mh fuel cs (some c)
        ⟨c :: r.out, r.remapped, r.removed, r.found⟩

/-- One `String.prototype.replace` call with a global multiline
regex and a replacer callback: try the pattern at every `^` boundary
left to right, splice the callback's return for each non-overlapping
match, copy everything else. -/
def scanReplace (mh : List Char → Option (RegexMatch × List Char))
    (t : List Char) : PassResult :=
  scanReplaceFuel mh t.length t none

/-- Faithful model of `sanitizeImports` (sanitizer.ts lines 499-566):
the `IMPORT_PATTERN` pass over the input, then the
`ALIASED_IMPORT_PATTERN` pass over its output; the entry lists
accumulate across both passes and `success` is unconditionally
`true`. -/
def sanitizeImportsJS (code : List Char) : SanitizerResult :=
  let p1 := scanReplace matchPlainHere code
  let p2 := scanReplace matchAliasedHere p1.out
  { code := p2.out
    remappedImports := p1.remapped ++ p2.remapped
    removedImports := p1.removed ++ p2.removed
    success := true }

/-- All matches found during `sanitizeImportsJS code`, in callback
order: the plain pass over `code`, then the aliased pass over the
plain pass's output. -/
def jsMatches (code : List Char) : List RegexMatch :=
  (scanReplace matchPlainHere code).found ++
    (scanReplace matchAliasedHere (scanReplace matchPlainHere code).out).found

/-- Number of newlines in a string. -/
def countNl (s : List Char) : Nat := s.countP (fun c => c = '\n')

/-! ## Compiler adapter (`src/backend/src/engine/compiler.ts`)

`executeForge` spawns the toolchain build and assembles `logs` from a
fixed header, the captured stdout/stderr chunks (in arrival order)
and a status footer.  The child process's behaviour — the emitted
chunks, how it terminated, and whether the deadline timer fired
first — is the model's input. -/

/-- One `data` event on the child's stdout or stderr.  Chunks arrive
as arbitrary byte slices; a single chunk may span several lines. -/
inductive ForgeEvent
  | out (s : List Char)
  | errOut (s : List Char)
deriving DecidableEq, Repr

/-- How the spawned process ended: a `close` event with an exit code
(`none` models a null code, e.g. after a kill), or an `error` event
(spawn failure). -/
inductive ForgeTermination
  | closed (code : Option Int)
  | spawnError (message : List Char)
deriving DecidableEq, Repr

/-- A complete observed run of the build child process.  `timedOut`
records whether the deadline timer fired (killing the process) before
the `close` event. -/
structure ForgeRun where
  events : List ForgeEvent
  term : ForgeTermination
  timedOut : Bool
deriving DecidableEq, Repr

/-- Model of `CompilerResult`, minus the wall-clock fields (`timestamp` and
`durationMs` are real time and are not modelled). -/
structure CompilerResult where
  success : Bool
  logs : List Char
deriving DecidableEq, Repr

/-- The 75-character heavy separator line of the log header. -/
def heavyRule : List Char := List.replicate 75 '═'

/-- The 77-character light separator line of the log header. -/
def lightRule : List Char := List.replicate 77 '─'

/-- The fixed log header pushed before any output is captured
(executeForge lines 259-269).  `ws` is the workspace path and `cmd`
the resolved command string, both environment-dependent. -/
def forgeHeader (ws cmd : List Char) : List (List Char) :=
  [ heavyRule,
    "  SENTRY PRE-FLIGHT COMPILER".data,
    heavyRule,
    "".data,
    "  Workspace: ".data ++ ws,
    "  Command: ".data ++ cmd ++ " build".data,
    "".data,
    lightRule,
    "  FORGE OUTPUT:".data,
    lightRule,
    "".data ]

/-- One captured chunk as pushed into `logs`: stdout verbatim, stderr
prefixed once per chunk with `[STDERR] `. -/
def forgeEventLog : ForgeEvent → List Char
  | .out s => s
  | .errOut s => "[STDERR] ".data ++ s

/-- Model of `executeForge`: the `CompilerResult` resolved for a given run.
`logs` is `logsArray.join('\n')`. -/
def executeForge (ws cmd : List Char) (run : ForgeRun) : CompilerResult :=
  let logs0 := forgeHeader ws cmd ++ run.events.map forgeEventLog
  match run.term with
  | .spawnError message =>
    { success := false
      logs := joinLines (logs0 ++
        ["  Status: ✗ SPAWN ERROR: ".data ++ message]) }
  | .closed code =>
    let logs1 := logs0 ++
      ["".data,
       lightRule]
    if run.timedOut then
      { success := false
        logs := joinLines (logs1 ++ ["  Status: TIMEOUT".data]) }
    else
      let success := code == some 0
      { success := success
        logs := joinLines (logs1 ++
          ["  Status: ".data ++
            (if success then "✓ SUCCESS".data else "✗ FAILED".data)]) }

/-! ### Platform resolution (`getForgeCommand`, `isFoundryAvailable`,
`compileCode`) -/

/-- The outcome of the three version probes on this host: native
`forge` on PATH, `wsl forge`, and `wsl ~/.foundry/bin/forge` (the two
WSL probes are only consulted when `process.platform` is win32). -/
structure ProbeEnv where
  forgeOnPath : Bool
  isWin32 : Bool
  wslForge : Bool
  wslPathForge : Bool
deriving DecidableEq, Repr

/-- Model of `getForgeCommand` (the process-wide memoization cache is not
modelled; the probes are deterministic inputs here).  When every
candidate fails, the source defaults to `'forge'` — commented "will
fail later but that's expected if missing". -/
def getForgeCommand (e : ProbeEnv) : List Char :=
  if e.forgeOnPath then "forge".data
  else if e.isWin32 && e.wslForge then "wsl forge".data
  else if e.isWin32 && e.wslPathForge then "wsl ~/.foundry/bin/forge".data
  else "forge".data

/-- Model of `isFoundryAvailable`: probes the resolved command with
`--version`.  Re-probing the command `getForgeCommand` settled on
gives the same deterministic outcome as the original probe; in
particular the fallback `'forge'` chosen when every candidate failed
still fails its probe. -/
def isFoundryAvailable (e : ProbeEnv) : Bool :=
  if e.forgeOnPath then true
  else if e.isWin32 && e.wslForge then true
  else if e.isWin32 && e.wslPathForge then true
  else false

/-- Environment of one `compileCode` call: the probe outcomes, an
optional failure of the workspace filesystem preparation (caught and
reported as `[SENTRY COMPILER ERROR]`), and the build child-process
run observed if the build is spawned. -/
structure CompileEnv where
  probe : ProbeEnv
  workspaceDir : List Char
  fsError : Option (List Char)
  run : ForgeRun
deriving DecidableEq, Repr

/-- Model of `compileCode`, also reporting whether the build command was
actually spawned (`executeForge` reached).  The sandbox staging steps
(mkdir, clean, mock copy, source write) either all succeed or throw
`fsError`; nothing in `compileCode` short-circuits on a failed
toolchain probe. -/
def compileCode (env : CompileEnv) : CompilerResult × Bool :=
  match env.fsError with
  | some msg =>
    ({ success := false
       logs := "[SENTRY COMPILER ERROR] ".data ++ msg }, false)
  | none =>
    (executeForge env.workspaceDir (getForgeCommand env.probe) env.run, true)

/-! ## Hypothesis generator (`src/backend/src/agent/analyzer.ts`,
`src/backend/src/agent/prompts.ts`)

The provider HTTP calls and the JavaScript built-ins `extractJSON` +
`JSON.parse` are external collaborators; they are modelled as inputs
(a per-model outcome, and an abstract `parseJson` function from
response text to a JSON value).  Schema validation
(`validateAIResponse`), enum normalization (`mapVulnerabilityType`)
and the OpenRouter model-fallback loop are translated from the
source. -/

/-- A JSON value (JSON numbers produced and validated by this
pipeline are integers, so `Int` carries them). -/
inductive Json
  | null
  | bool (b : Bool)
  | num (n : Int)
  | str (s : List Char)
  | arr (xs : List Json)
  | obj (fields : List (List Char × Json))

/-- JS property lookup on a parsed JSON object. -/
def Json.getField (j : Json) (name : List Char) : Option Json :=
  match j with
  | .obj fields => (fields.find? (fun f => f.1 == name)).map (·.2)
  | _ => none

/-- One hypothesis entry of `validateAIResponse`'s loop: `target` a
nonempty string, `vulnerabilityType` a string, `confidence` a number
in `[0, 100]`, `reasoning` a string. -/
def validHypothesisJson (h : Json) : Bool :=
  match h with
  | .obj _ =>
    (match h.getField "target".data with
     | some (.str t) => !t.isEmpty
     | _ => false) &&
    (match h.getField "vulnerabilityType".data with
     | some (.str _) => true
     | _ => false) &&
    (match h.getField "confidence".data with
     | some (.num c) => 0 ≤ c && c ≤ 100
     | _ => false) &&
    (match h.getField "reasoning".data with
     | some (.str _) => true
     | _ => false)
  | _ => false

/-- Model of `validateAIResponse` (prompts.ts lines 96-132): the response must
be an object whose `hypotheses` field is an array of valid hypothesis
entries; any shape violation rejects the whole response. -/
def validateAIResponse (response : Json) : Bool :=
  match response with
  | .obj _ =>
    match response.getField "hypotheses".data with
    | some (.arr hs) => hs.all validHypothesisJson
    | _ => false
  | _ => false

/-- One character of `type.toUpperCase().replace(/[^A-Z]/g, '_')`. -/
def normalizeTypeChar (c : Char) : Char :=
  let u := c.toUpper
  if 'A' ≤ u && u ≤ 'Z' then u else '_'

/-- Model of `mapVulnerabilityType`: normalizes a free-text type into the
closed enum, defaulting to `OTHER`. -/
def mapVulnerabilityType (ty : List Char) : VulnType :=
  let normalized := ty.map normalizeTypeChar
  if normalized == "ACCESS_CONTROL".data ||
      normalized == "ACCESSCONTROL".data ||
      normalized == "MISSING_ACCESS_CONTROL".data then .ACCESS_CONTROL
  else if normalized == "REENTRANCY".data then .REENTRANCY
  else if normalized == "OVERFLOW".data ||
      normalized == "UNDERFLOW".data ||
      normalized == "INTEGER_OVERFLOW".data then .OVERFLOW
  else .OTHER

/-- Model of `AnalysisResponse`. -/
structure AnalysisResponse where
  hypotheses : List VulnerabilityHypothesis
  success : Bool
  error : Option (List Char)
deriving DecidableEq, Repr

/-- Builds the `VulnerabilityHypothesis` list from a schema-valid
response (`parsed.hypotheses.map(...)`).  The defaults are
unreachable after `validateAIResponse` accepts. -/
def extractHypotheses (j : Json) : List VulnerabilityHypothesis :=
  match j.getField "hypotheses".data with
  | some (.arr hs) =>
    hs.map (fun h =>
      { target := match h.getField "target".data with
          | some (.str t) => t
          | _ => []
        vulnerabilityType := match h.getField "vulnerabilityType".data with
          | some (.str ty) => mapVulnerabilityType ty
          | _ => .OTHER
        confidence := match h.getField "confidence".data with
          | some (.num c) => c
          | _ => 0
        reasoning := match h.getField "reasoning".data with
          | some (.str r) => r
          | _ => [] })
  | _ => []

/-- Model of `OpenRouterProvider.parseResponse`, over an abstract `parseJson`
modelling `extractJSON` + `JSON.parse` (returns `none` when no JSON
object can be extracted and parsed from the response text). -/
def parseResponse (parseJson : List Char → Option Json)
    (content : List Char) : AnalysisResponse :=
  match parseJson content with
  | none =>
    { hypotheses := [], success := false
      error := some ("Invalid JSON response: ".data ++ content.take 200) }
  | some parsed =>
    if validateAIResponse parsed then
      { hypotheses := extractHypotheses parsed, success := true, error := none }
    else
      { hypotheses := [], success := false
        error := some "Response does not match expected schema".data }

/-- The outcome of one chat-completion request to one model: the API
threw, returned an empty/absent message, or returned content text. -/
inductive ModelOutcome
  | apiError (message : List Char)
  | empty
  | content (s : List Char)
deriving DecidableEq, Repr

/-- Model of `OpenRouterProvider.analyze` (analyzer.ts lines 157-215): the
sequential fallback loop over `modelsToTry`, here represented by the
per-model outcomes in order.  Returns the response together with the
number of model requests issued.  The post-loop `'All models failed'`
return is reachable only for an empty model list, which the
constructor (`[this.model, ...this.fallbackModels]`) never builds. -/
def analyzeOpenRouter (parseJson : List Char → Option Json) :
    List ModelOutcome → AnalysisResponse × Nat
  | [] => ({ hypotheses := [], success := false
             error := some "All models failed".data }, 0)
  | o :: rest =>
    let isLastModel := rest.isEmpty
    match o with
    | .apiError message =>
      if isLastModel then
        ({ hypotheses := [], success := false, error := some message }, 1)
      else
        let r := analyzeOpenRouter parseJson rest
        (r.1, r.2 + 1)
    | .empty =>
      if isLastModel then
        ({ hypotheses := [], success := false
           error := some "Empty response from OpenRouter API".data }, 1)
      else
        let r := analyzeOpenRouter parseJson rest
        (r.1, r.2 + 1)
    | .content s =>
      let result := parseResponse parseJson s
      if !result.success && !isLastModel then
        let r := analyzeOpenRouter parseJson rest
        (r.1, r.2 + 1)
      else
        (result, 1)

/-! ## Exploit injection (`src/backend/src/engine/verifier.ts`,
`generateExploitCode` / `injectExploit`)

The harness template is an external collaborator file read from disk;
its content (and existence) is the model's input. -/

/-- Decimal digit character. -/
def digitChar (n : Nat) : Char := Char.ofNat (48 + n)

/-- Digits of a natural number (fuel-structural so it evaluates in
the kernel; fuel `n + 1` always suffices). -/
def natDigitsAux : Nat → Nat → List Char → List Char
  | 0, _, acc => acc
  | fuel + 1, n, acc =>
    if n < 10 then digitChar n :: acc
    else natDigitsAux fuel (n / 10) (digitChar (n % 10) :: acc)

/-- JS `Number` to string for an integer value (template-literal
interpolation `${hypothesis.confidence}`). -/
def intToStr (i : Int) : List Char :=
  if i < 0 then '-' :: natDigitsAux i.natAbs i.natAbs []
  else natDigitsAux (i.natAbs + 1) i.natAbs []

/-- The enum value as interpolated into a template literal
(`${hypothesis.vulnerabilityType}`). -/
def vulnTypeStr : VulnType → List Char
  | .ACCESS_CONTROL => "ACCESS_CONTROL".data
  | .REENTRANCY => "REENTRANCY".data
  | .OVERFLOW => "OVERFLOW".data
  | .OTHER => "OTHER".data

/-- Model of `VALID_FUNCTION_NAME = /^[a-zA-Z_][a-zA-Z0-9_]*$/`. -/
def validFunctionNameRe (s : List Char) : Bool :=
  match s with
  | [] => false
  | c :: cs => (c.isAlpha || c = '_') && cs.all (fun d => d.isAlphanum || d = '_')

/-- Model of `isValidFunctionName`: rejects an empty (falsy) target, then
tests the identifier regex against the trimmed target. -/
def isValidFunctionName (target : List Char) : Bool :=
  !target.isEmpty && validFunctionNameRe (trimCh target)

/-- Model of `generateExploitCode` (verifier.ts lines 81-127): the snippet
injected into the harness.  Only the `ACCESS_CONTROL` branch embeds
`reasoning`; the `REENTRANCY` branch and the default branch embed
target, type and confidence only. -/
def generateExploitCode (h : VulnerabilityHypothesis) : List Char :=
  let target := trimCh h.target
  match h.vulnerabilityType with
  | .ACCESS_CONTROL =>
    "\n        // SENTRY Generated Exploit: Testing Access Control\n        // Target Function: ".data ++
    target ++
    "\n        // Vulnerability Type: ".data ++ vulnTypeStr h.vulnerabilityType ++
    "\n        // Confidence: ".data ++ intToStr h.confidence ++
    "%\n        // Reasoning: ".data ++ h.reasoning ++
    "\n        \n        // Attempt to call the target function as a non-privileged attacker\n        // If this call does NOT revert, the access control is broken\n        target.".data ++
    target ++ "();".data
  | .REENTRANCY =>
    "\n        // SENTRY Generated Exploit: Testing Reentrancy\n        // Target Function: ".data ++
    target ++
    "\n        // Vulnerability Type: ".data ++ vulnTypeStr h.vulnerabilityType ++
    "\n        // Confidence: ".data ++ intToStr h.confidence ++
    "%\n        \n        target.".data ++ target ++ "();".data
  | _ =>
    "\n        // SENTRY Generated Exploit: Generic Access Test\n        // Target Function: ".data ++
    target ++
    "\n        // Vulnerability Type: ".data ++ vulnTypeStr h.vulnerabilityType ++
    "\n        // Confidence: ".data ++ intToStr h.confidence ++
    "%\n        \n        target.".data ++ target ++ "();".data

/-- Model of `INJECTION_MARKER = '// \x7b\x7bINJECT_ATTACK_CODE\x7d\x7d'`. -/
def INJECTION_MARKER : List Char :=
  "// \x7b\x7bINJECT_ATTACK_CODE\x7d\x7d".data

/-- Model of `userCodeFileName.replace(/\.sol$/i, '')`: strips one trailing
`.sol`, case-insensitively. -/
def stripSolSuffix (fileName : List Char) : List Char :=
  if isPrefCh ".sol".data (lowerStr (fileName.reverse.take 4).reverse) &&
      4 ≤ fileName.length then
    fileName.take (fileName.length - 4)
  else fileName

/-- Model of `InjectionResult`; `written` is the content written to
`workspace/test/Attacker.t.sol` on success (the path itself is a
fixed constant and is elided). -/
structure InjectionResult where
  success : Bool
  error : Option (List Char)
  exploitCode : Option (List Char)
  written : Option (List Char)
deriving DecidableEq, Repr

/-- Environment of one `injectExploit` call: whether the template
file exists, and its content when it does. -/
structure InjectEnv where
  templateExists : Bool
  template : List Char
deriving DecidableEq, Repr

/-- Step 4 of `injectExploit`: when the contract name differs from
`Vault`, rewrite the template's import path (first occurrence) and
its `Vault` type references (all occurrences).  All three replacement
arguments are strings, so JS `$`-substitution applies to them. -/
def transformHarness (template userCodeFileName : List Char) : List Char :=
  let contractName := stripSolSuffix userCodeFileName
  if contractName ≠ "Vault".data then
    replaceAllSubst "target = new Vault()".data
      ("target = new ".data ++ contractName ++ "()".data)
      (replaceAllSubst "Vault public target".data
        (contractName ++ " public target".data)
        (replaceOnceSubst "import \"src/Vault.sol\";".data
          ("import \"src/".data ++ userCodeFileName ++ "\";".data)
          template))
  else template

/-- Model of `injectExploit` (verifier.ts lines 140-237).  Validation touches
only `hypothesis.target`; `reasoning` and `confidence` flow into the
rendered harness unchecked.  The marker splice
`harnessContent.replace(INJECTION_MARKER, exploitCode)` passes the
snippet as a string replacement, so `$`-sequences inside it are
rewritten by `getSubstitution` on the way into the file.  (Filesystem
write errors are caught into `error` and are not modelled
separately.) -/
def injectExploit (env : InjectEnv) (userCodeFileName : List Char)
    (h : VulnerabilityHypothesis) : InjectionResult :=
  if !isValidFunctionName h.target then
    { success := false
      error := some ("Invalid target function name: \"".data ++ h.target ++
        "\". Must be a valid Solidity identifier.".data)
      exploitCode := none, written := none }
  else if !env.templateExists then
    { success := false
      error := some "Harness template not found at: ".data
      exploitCode := none, written := none }
  else if !isInfCh INJECTION_MARKER env.template then
    { success := false
      error := some ("Injection marker \"".data ++ INJECTION_MARKER ++
        "\" not found in harness template.".data)
      exploitCode := none, written := none }
  else
    let exploitCode := generateExploitCode h
    let harnessContent := replaceOnceSubst INJECTION_MARKER exploitCode
      (transformHarness env.template userCodeFileName)
    { success := true
      error := none
      exploitCode := some (trimCh exploitCode)
      written := some harnessContent }

/-- Model of `verifyHypothesis` (verifier.ts lines 363-382): inject, then run;
an injection failure yields an `INCONCLUSIVE` result whose
`testOutput` carries the injection error. -/
def verifyHypothesis (env : InjectEnv) (userCodeFileName : List Char)
    (h : VulnerabilityHypothesis) (e : ExecResult) : VerificationResult :=
  let injectionResult := injectExploit env userCodeFileName h
  if !injectionResult.success then
    { verdict := .INCONCLUSIVE
      targetFunction := h.target
      exploitSucceeded := false
      testOutput := "Injection failed: ".data ++
        injectionResult.error.getD [] }
  else
    runExploitTest h e

/-! ## Pipeline orchestrator (`src/backend/src/index.ts`,
`runFullPipeline`)

The stage collaborators — toolchain availability, the compiler run,
provider configuration, the AI analysis, the harness template and
the test-run outcome — are the environment; the control flow and the
final verdict reduction are translated from the source.  The
cumulative log transcript does not influence the verdict and is not
modelled. -/

/-- External outcomes consumed by one `runFullPipeline` call. -/
structure PipelineEnv where
  foundryAvailable : Bool
  compileSuccess : Bool
  apiKeyConfigured : Bool
  analysis : AnalysisResponse
  inject : InjectEnv
  exec : ExecResult
deriving DecidableEq, Repr

/-- Model of `runFullPipeline` (index.ts lines 46-230), reduced to the
returned `AuditResult.verdict`.  The SANITIZE stage
(`sanitizeImports code`) runs first but has no failure path — its
constant `success := true` flag is never consulted — and the
sanitized code only feeds the sandboxed COMPILE, whose outcome is
`env.compileSuccess`; `verifyHypothesis` is always called on
hypothesis index 0 with file name `Vault.sol`.  No branch of the
source inspects the sanitizer result, so the verdict is a function of
the stage environment alone. -/
def runFullPipeline (env : PipelineEnv) (_code : List Char) : AuditVerdict :=
  if !env.foundryAvailable then .ERROR
  else if !env.compileSuccess then .ERROR
  else if !env.apiKeyConfigured then .ERROR
  else if !env.analysis.success then .ERROR
  else
    match env.analysis.hypotheses with
    | [] => .SECURE
    | primaryHypothesis :: _ =>
      let verificationResult :=
        verifyHypothesis env.inject "Vault.sol".data primaryHypothesis env.exec
      match verificationResult.verdict with
      | .CRITICAL_VULNERABILITY_FOUND => .CRITICAL
      | .VULNERABILITY_CONFIRMED => .CRITICAL
      | .FALSE_POSITIVE => .SECURE
      | _ => .UNKNOWN

/-! ## Helper lemmas on the string primitives -/

theorem isPrefCh_self_append (p t : List Char) : isPrefCh p (p ++ t) = true := by
  induction p with
  | nil => simp [isPrefCh]
  | cons a as ih => simp [isPrefCh, ih]

theorem isInfCh_of_isPrefCh {p l : List Char} (h : isPrefCh p l = true) :
    isInfCh p l = true := by
  cases l with
  | nil => simpa [isInfCh] using h
  | cons b bs => simp [isInfCh, h]

theorem isInfCh_append_left {p b : List Char} (a : List Char)
    (h : isInfCh p b = true) : isInfCh p (a ++ b) = true := by
  induction a with
  | nil => simpa using h
  | cons c cs ih => simp [isInfCh, ih]

theorem isInfCh_middle (x a b : List Char) :
    isInfCh x (a ++ x ++ b) = true := by
  rw [List.append_assoc]
  exact isInfCh_append_left a (isInfCh_of_isPrefCh (isPrefCh_self_append x b))

/-! ## Claim C1 -/

/-- C1 counterexample: when the `forge test` child throws (non-zero
exit) with captured partial output containing the exploit marker, the
catch branch classifies by the cruder `error`/`compil` text search
only — the returned verdict is `INCONCLUSIVE`, not
`VULNERABILITY_CONFIRMED`, even though the captured output contains
`EXPLOIT SUCCEEDED` (and `[FAIL]`). -/
theorem C1_counterexample :
    (isInfCh EXPLOIT_MARKER
      (runExploitTest ⟨"withdraw".data, .ACCESS_CONTROL, 90, "r".data⟩
        (.thrown [] "[FAIL] EXPLOIT SUCCEEDED: Access Control Bypassed".data
          "Command failed: forge test".data)).testOutput = true) ∧
    (runExploitTest ⟨"withdraw".data, .ACCESS_CONTROL, 90, "r".data⟩
      (.thrown [] "[FAIL] EXPLOIT SUCCEEDED: Access Control Bypassed".data
        "Command failed: forge test".data)).verdict = .INCONCLUSIVE := by
  decide

/-- C1 (amended): for every run that resolves normally (the child
exited 0), combined output containing the exploit marker always
yields `VULNERABILITY_CONFIRMED`, regardless of `[PASS]`, `[FAIL]` or
compile-error phrases also present; but for every run where the child
throws, the catch branch applies the cruder `error`/`compil`
classification to the captured output and can never return
`VULNERABILITY_CONFIRMED`. -/
theorem C1_spec (h : VulnerabilityHypothesis) :
    (∀ stdout stderr : List Char,
        isInfCh EXPLOIT_MARKER (stdout ++ '\n' :: stderr) = true →
        (runExploitTest h (.ok stdout stderr)).verdict =
          .VULNERABILITY_CONFIRMED) ∧
    (∀ stdout stderr message : List Char,
        (runExploitTest h (.thrown stdout stderr message)).verdict ≠
          .VULNERABILITY_CONFIRMED) := by
  constructor
  · intro stdout stderr hm
    simp [runExploitTest, classifyOutput, hm]
  · intro stdout stderr message
    simp only [runExploitTest, classifyThrown]
    split <;> split <;> simp

/-- C1 witness: a concrete exit-0 run whose output holds the exploit
marker together with `[PASS]`, `[FAIL]` and a compile-error phrase is
still classified `VULNERABILITY_CONFIRMED`. -/
theorem C1_witness :
    (runExploitTest ⟨"mint".data, .OTHER, 10, []⟩
      (.ok "[PASS] [FAIL] Compiler error: EXPLOIT SUCCEEDED".data
        [])).verdict = .VULNERABILITY_CONFIRMED :=
  (C1_spec ⟨"mint".data, .OTHER, 10, []⟩).1 _ _ (by decide)

/-! ## Claim C2 -/

theorem isInfCh_nil_left (l : List Char) : isInfCh [] l = true := by
  induction l with
  | nil => rfl
  | cons c cs ih => simp [isInfCh, isPrefCh, ih]

/-- A pattern starting with a non-whitespace character occurs in
`a ++ b` with `a` all-whitespace iff it occurs in `b`. -/
theorem isInfCh_cons_space_append (p0 : Char) (ps b : List Char)
    (hp0 : jsSpace p0 = false) :
    ∀ a : List Char, (∀ c ∈ a, jsSpace c = true) →
      isInfCh (p0 :: ps) (a ++ b) = isInfCh (p0 :: ps) b := by
  intro a
  induction a with
  | nil => intro _; rfl
  | cons c cs ih =>
    intro hpa
    have hc : jsSpace c = true := hpa c (List.mem_cons_self c cs)
    have hne : (p0 == c) = false := by
      cases hbe : p0 == c
      · rfl
      · exact absurd (by rw [eq_of_beq hbe, hc] at hp0; exact hp0)
          (by simp)
    have htl : ∀ d ∈ cs, jsSpace d = true :=
      fun d hd => hpa d (List.mem_cons_of_mem c hd)
    simp [isInfCh, isPrefCh, hne, ih htl]

/-- Lowercasing preserves JS whitespace characters. -/
theorem lowerCh_of_jsSpace {c : Char} (h : jsSpace c = true) : lowerCh c = c := by
  simp only [jsSpace, Bool.or_eq_true, decide_eq_true_eq] at h
  rcases h with ((((h | h) | h) | h) | h) | h <;> subst h <;> decide

/-- The untrusted-prefix test ignores an all-whitespace prefix. -/
theorem containsUntrusted_ws_append (ws rest : List Char)
    (hws : ∀ c ∈ ws, jsSpace c = true) :
    containsUntrusted (ws ++ rest) = containsUntrusted rest := by
  have hlw : ∀ c ∈ List.map lowerCh ws, jsSpace c = true := by
    intro c hc
    simp only [List.mem_map] at hc
    obtain ⟨d, hd, rfl⟩ := hc
    rw [lowerCh_of_jsSpace (hws d hd)]
    exact hws d hd
  have e1 : "@openzeppelin".data = '@' :: "openzeppelin".data := rfl
  have e2 : "@chainlink".data = '@' :: "chainlink".data := rfl
  have e3 : "@uniswap".data = '@' :: "uniswap".data := rfl
  have e4 : "hardhat".data = 'h' :: "ardhat".data := rfl
  simp only [containsUntrusted, untrustedPatterns, lowerStr, List.map_append,
    List.any_cons, List.any_nil, e1, e2, e3, e4]
  rw [isInfCh_cons_space_append _ _ _ (by decide) _ hlw,
    isInfCh_cons_space_append _ _ _ (by decide) _ hlw,
    isInfCh_cons_space_append _ _ _ (by decide) _ hlw,
    isInfCh_cons_space_append _ _ _ (by decide) _ hlw]

/-- Every mock path the whitelist can produce. -/
theorem whitelistLookup_mem_mocks {p m : List Char}
    (h : whitelistLookup p = some m) :
    m = "mocks/Ownable.sol".data ∨ m = "mocks/IERC20.sol".data ∨
      m = "mocks/ERC20.sol".data := by
  simp only [whitelistLookup, Option.map_eq_some'] at h
  obtain ⟨pr, hfind, hm⟩ := h
  have hmem := List.mem_of_find?_eq_some hfind
  simp only [IMPORT_WHITELIST, List.mem_cons, List.not_mem_nil, or_false] at hmem
  rcases hmem with h | h | h | h | h | h | h <;>
    · rw [← hm, h]
      simp

/-- C2 counterexample: the bare input `@openzeppelin` contains no import
statement, so `sanitizeImports` returns it untouched and the
untrusted prefix `@openzeppelin` survives into `.code`. -/
theorem C2_counterexample :
    containsUntrusted ((sanitizeImports "@openzeppelin".data).code) = true ∧
    (sanitizeImports "@openzeppelin".data).code = "@openzeppelin".data := by
  decide

/-- C2 (amended): the no-untrusted-substring guarantee does not hold
for raw `sanitizeImports` output on every input shape (non-import
text and removal comments can retain untrusted prefixes); what holds
is (a) the secondary `validateSanitizedCode` check accepts exactly
the code containing no untrusted-prefix substring, case-insensitively,
and (b) every whitelisted import line rewritten by the sanitizer — an
all-whitespace indent followed by `import "<mockPath>";` — contains
no untrusted prefix. -/
theorem C2_spec :
    (∀ code, validateSanitizedCode code = true ↔
      containsUntrusted code = false) ∧
    (∀ ws p mock, (∀ c ∈ ws, jsSpace c = true) →
      whitelistLookup p = some mock →
      containsUntrusted (mockImportLine ws mock) = false) := by
  constructor
  · intro code
    simp only [validateSanitizedCode]
    cases h : containsUntrusted code <;> simp
  · intro ws p mock hws hwl
    have hassoc : mockImportLine ws mock =
        ws ++ ("import \"".data ++ mock ++ "\";".data) := by
      simp [mockImportLine, List.append_assoc]
    rw [hassoc, containsUntrusted_ws_append _ _ hws]
    rcases whitelistLookup_mem_mocks hwl with h | h | h <;> subst h <;> decide

/-- C2 witness: a concrete indented whitelisted rewrite is untrusted
free. -/
theorem C2_witness :
    containsUntrusted
      (mockImportLine "  ".data "mocks/Ownable.sol".data) = false :=
  C2_spec.2 "  ".data "@openzeppelin/contracts/access/Ownable.sol".data
    "mocks/Ownable.sol".data (by decide) (by decide)

/-! ## Claim C3 -/

theorem splitLines_ne_nil (cs : List Char) : splitLines cs ≠ [] := by
  induction cs with
  | nil => simp [splitLines]
  | cons c cs ih =>
    simp only [splitLines]
    split
    · simp
    · split <;> simp

theorem joinLines_splitLines (cs : List Char) :
    joinLines (splitLines cs) = cs := by
  induction cs with
  | nil => rfl
  | cons c cs ih =>
    by_cases hc : c = '\n'
    · subst hc
      simp only [splitLines, if_pos rfl]
      rcases h : splitLines cs with _ | ⟨l, ls⟩
      · exact absurd h (splitLines_ne_nil cs)
      · rw [h] at ih
        show joinLines ([] :: l :: ls) = '\n' :: cs
        simp only [joinLines, List.nil_append]
        rw [ih]
    · simp only [splitLines, if_neg hc]
      rcases h : splitLines cs with _ | ⟨l, ls⟩
      · exact absurd h (splitLines_ne_nil cs)
      · rw [h] at ih
        cases ls with
        | nil =>
          simp only [joinLines] at ih ⊢
          rw [ih]
        | cons l2 ls2 =>
          simp only [joinLines] at ih ⊢
          rw [List.cons_append, ih]

/-- If no line of `y` matches either import pattern, the sanitizer
returns `y` unchanged. -/
theorem sanitizeImports_code_eq_self {y : List Char}
    (h : ∀ l ∈ splitLines y,
        parseImportLine l = none ∧ parseAliasedLine l = none) :
    (sanitizeImports y).code = y := by
  have h1 : (splitLines y).map (fun l => (processPlainLine l).1) =
      splitLines y := by
    conv_rhs => rw [← List.map_id (splitLines y)]
    apply List.map_congr_left
    intro l hl
    simp [processPlainLine, (h l hl).1]
  have h2 : (splitLines y).map (fun l => (processAliasedLine l).1) =
      splitLines y := by
    conv_rhs => rw [← List.map_id (splitLines y)]
    apply List.map_congr_left
    intro l hl
    simp [processAliasedLine, (h l hl).2]
  simp only [sanitizeImports, runPass]
  rw [h1, h2]
  exact joinLines_splitLines y

/-- C3 counterexample: the sanitizer is not idempotent.  A whitelisted import
rewritten to its mock path on the first pass is no longer
whitelisted (no pattern matches `mocks/Ownable.sol`), so a second
pass comments it out. -/
theorem C3_counterexample :
    (sanitizeImports
        ((sanitizeImports
          "import \"@openzeppelin/contracts/access/Ownable.sol\";".data).code)).code ≠
      (sanitizeImports
        "import \"@openzeppelin/contracts/access/Ownable.sol\";".data).code ∧
    (sanitizeImports
        ((sanitizeImports
          "import \"@openzeppelin/contracts/access/Ownable.sol\";".data).code)).code =
      "// IMPORT REMOVED BY SENTRY SANITIZER: mocks/Ownable.sol".data := by
  constructor
  · decide
  · decide

/-- C3 (amended): `sanitize(sanitize(x).code).code = sanitize(x).code`
holds only when the first pass's output contains no line matching an import
pattern; a whitelisted import rewritten to a mock path is not
left unchanged — a second pass removes it (see the counterexample). -/
theorem C3_spec (x : List Char)
    (h : ∀ l ∈ splitLines ((sanitizeImports x).code),
        parseImportLine l = none ∧ parseAliasedLine l = none) :
    (sanitizeImports ((sanitizeImports x).code)).code =
      (sanitizeImports x).code :=
  sanitizeImports_code_eq_self h

/-- C3 witness: idempotence at an import-free contract. -/
theorem C3_witness :
    (sanitizeImports
        ((sanitizeImports
          "pragma solidity ^0.8.0;\ncontract C is Ownable".data).code)).code =
      (sanitizeImports
        "pragma solidity ^0.8.0;\ncontract C is Ownable".data).code :=
  C3_spec "pragma solidity ^0.8.0;\ncontract C is Ownable".data (by decide)

/-! ## Line-restricted sanitizer: parser inversion lemmas -/

theorem mem_of_mem_takeWhile {q : Char → Bool} {l : List Char} {c : Char}
    (h : c ∈ l.takeWhile q) : c ∈ l :=
  List.Sublist.mem h (List.takeWhile_sublist q)

theorem mem_of_mem_dropWhile {q : Char → Bool} {l : List Char} {c : Char}
    (h : c ∈ l.dropWhile q) : c ∈ l :=
  List.IsSuffix.mem h (List.dropWhile_suffix q)

theorem expectLit_mem {lit r rest : List Char}
    (h : expectLit lit r = some rest) : ∀ c ∈ rest, c ∈ r := by
  induction lit generalizing r with
  | nil =>
    simp only [expectLit, Option.some.injEq] at h
    subst h
    exact fun c hc => hc
  | cons a as ih =>
    cases r with
    | nil => exact absurd h (by simp [expectLit])
    | cons b bs =>
      simp only [expectLit] at h
      split at h
      · exact fun c hc => List.mem_cons_of_mem _ (ih h c hc)
      · cases h

theorem parseWsImport_mem {l ws r : List Char}
    (h : parseWsImport l = some (ws, r)) :
    (∀ c ∈ ws, jsSpace c = true) ∧ (∀ c ∈ ws, c ∈ l) ∧ (∀ c ∈ r, c ∈ l) := by
  simp only [parseWsImport] at h
  split at h
  · cases h
  · rename_i r2 heq
    split at h
    · cases h
    · simp only [Option.some.injEq, Prod.mk.injEq] at h
      obtain ⟨hws, hr⟩ := h
      subst hws hr
      refine ⟨fun c hc => List.mem_takeWhile_imp hc,
        fun c hc => mem_of_mem_takeWhile hc, fun c hc => ?_⟩
      exact mem_of_mem_dropWhile
        (expectLit_mem heq c (mem_of_mem_dropWhile hc))

theorem parseQuotedPath_mem {r p rest : List Char}
    (h : parseQuotedPath r = some (p, rest)) : ∀ c ∈ p, c ∈ r := by
  cases r with
  | nil => cases h
  | cons q r1 =>
    simp only [parseQuotedPath] at h
    split at h
    · split at h
      · cases h
      · split at h
        · cases h
        · simp only [Option.some.injEq, Prod.mk.injEq] at h
          obtain ⟨hp, _⟩ := h
          subst hp
          exact fun c hc => List.mem_cons_of_mem _ (mem_of_mem_takeWhile hc)
    · cases h

theorem parseBracesFrom_mem {r r6 : List Char}
    (h : parseBracesFrom r = some r6) : ∀ c ∈ r6, c ∈ r := by
  simp only [parseBracesFrom] at h
  split at h
  · rename_i r1
    split at h
    · rename_i r3 heq
      split at h
      · cases h
      · split at h
        · cases h
        · rename_i r5 heq5
          split at h
          · cases h
          · simp only [Option.some.injEq] at h
            subst h
            intro c hc
            have h5 : c ∈ r5 := mem_of_mem_dropWhile hc
            have h4 : c ∈ r3.dropWhile jsSpace := expectLit_mem heq5 c h5
            have h3 : c ∈ r3 := mem_of_mem_dropWhile h4
            have h2 : c ∈ r1.dropWhile (fun c => c ≠ '}') := by
              rw [heq]; exact List.mem_cons_of_mem _ h3
            exact List.mem_cons_of_mem _ (mem_of_mem_dropWhile h2)
    · cases h
  · cases h

theorem parseOptionalBraces_mem {r r2 : List Char}
    (h : parseOptionalBraces r = some r2) : ∀ c ∈ r2, c ∈ r := by
  simp only [parseOptionalBraces] at h
  split at h
  · exact parseBracesFrom_mem h
  · simp only [Option.some.injEq] at h
    subst h
    exact fun c hc => hc

theorem parseImportLine_mem {l ws p : List Char}
    (h : parseImportLine l = some (ws, p)) :
    (∀ c ∈ ws, jsSpace c = true) ∧ (∀ c ∈ ws, c ∈ l) ∧ (∀ c ∈ p, c ∈ l) := by
  simp only [parseImportLine] at h
  split at h
  · cases h
  · rename_i ws0 r hwi
    obtain ⟨hwsSp, hwsMem, hrMem⟩ := parseWsImport_mem hwi
    split at h
    · cases h
    · rename_i r2 hr2
      split at h
      · cases h
      · rename_i p0 rest hq
        split at h
        · simp only [Option.some.injEq, Prod.mk.injEq] at h
          obtain ⟨h1, h2⟩ := h
          subst h1 h2
          exact ⟨hwsSp, hwsMem, fun c hc =>
            hrMem c (parseOptionalBraces_mem hr2 c
              (parseQuotedPath_mem hq c hc))⟩
        · cases h

theorem parseAliasedLine_mem {l ws p : List Char}
    (h : parseAliasedLine l = some (ws, p)) :
    (∀ c ∈ ws, jsSpace c = true) ∧ (∀ c ∈ ws, c ∈ l) ∧ (∀ c ∈ p, c ∈ l) := by
  simp only [parseAliasedLine] at h
  split at h
  · cases h
  · rename_i ws0 r hwi
    obtain ⟨hwsSp, hwsMem, hrMem⟩ := parseWsImport_mem hwi
    split at h
    · cases h
    · rename_i p0 rest hq
      split at h
      · simp only [Option.some.injEq, Prod.mk.injEq] at h
        obtain ⟨h1, h2⟩ := h
        subst h1 h2
        exact ⟨hwsSp, hwsMem, fun c hc =>
          hrMem c (parseQuotedPath_mem hq c hc)⟩
      · cases h

/-! ## Line-restricted sanitizer: disjointness of the two import patterns -/

/-- A tail accepted by `\s*;?\s*$` is never accepted by
`\s+as\s+\w+\s*;?\s*$`. -/
theorem aliasedTailOk_eq_false_of_plain {rest : List Char}
    (h : plainTailOk rest = true) : aliasedTailOk rest = false := by
  simp only [plainTailOk] at h
  simp only [aliasedTailOk]
  split at h
  · rename_i heq
    rw [heq]
    rcases (rest.takeWhile jsSpace).isEmpty <;> rfl
  · rename_i r2 heq
    rw [heq]
    rcases (rest.takeWhile jsSpace).isEmpty <;> rfl
  · cases h

/-- A line matched by `IMPORT_PATTERN` is not matched by
`ALIASED_IMPORT_PATTERN`. -/
theorem parseAliasedLine_eq_none_of_plain {l ws p : List Char}
    (h : parseImportLine l = some (ws, p)) : parseAliasedLine l = none := by
  simp only [parseImportLine] at h
  split at h
  · cases h
  · rename_i ws0 r hwi
    split at h
    · cases h
    · rename_i r2 hob
      split at h
      · cases h
      · rename_i p0 rest hq
        split at h
        case isFalse => cases h
        case isTrue hpt =>
          simp only [parseAliasedLine, hwi]
          rcases r with _ | ⟨c, rt⟩
          · simp [parseQuotedPath]
          · by_cases hc : c = '{'
            · subst hc
              simp [parseQuotedPath, isQuote]
            · have hob' : r2 = c :: rt := by
                simp only [parseOptionalBraces, List.head?] at hob
                rw [if_neg (by simp [hc])] at hob
                exact (Option.some.injEq _ _).mp hob |>.symm
              subst hob'
              rw [hq]
              simp [aliasedTailOk_eq_false_of_plain hpt]

/-! ## Line-restricted sanitizer: the aliased pass leaves pass-1 rewrites unchanged -/

theorem parseWsImport_ws_append {ws : List Char} {c : Char}
    (hws : ∀ d ∈ ws, jsSpace d = true) (hc : jsSpace c = false)
    (t : List Char) :
    parseWsImport (ws ++ c :: t) =
      (parseWsImport (c :: t)).map (fun pr => (ws ++ pr.1, pr.2)) := by
  simp only [parseWsImport]
  have h1 : (ws ++ c :: t).takeWhile jsSpace =
      ws ++ (c :: t).takeWhile jsSpace := List.takeWhile_append_of_pos hws
  have h1' : (c :: t).takeWhile jsSpace = [] := by
    simp [List.takeWhile_cons, hc]
  have h2 : (ws ++ c :: t).dropWhile jsSpace = (c :: t).dropWhile jsSpace :=
    List.dropWhile_append_of_pos hws
  have h2' : (c :: t).dropWhile jsSpace = c :: t := by
    simp [List.dropWhile_cons, hc]
  rw [h1, h1', h2, h2', List.append_nil]
  rcases he : expectLit "import".data (c :: t) with _ | r2
  · simp
  · simp only [Option.map_some']
    split <;> simp

theorem parseAliasedLine_ws_append {ws : List Char} {c : Char}
    (hws : ∀ d ∈ ws, jsSpace d = true) (hc : jsSpace c = false)
    (t : List Char) :
    parseAliasedLine (ws ++ c :: t) =
      (parseAliasedLine (c :: t)).map (fun pr => (ws ++ pr.1, pr.2)) := by
  simp only [parseAliasedLine, parseWsImport_ws_append hws hc t]
  rcases hw : parseWsImport (c :: t) with _ | ⟨ws1, r⟩
  · simp
  · simp only [Option.map_some']
    rcases hq : parseQuotedPath r with _ | ⟨p, rest⟩
    · simp
    · split <;> simp

/-- No line starting with `/` matches the aliased pattern (nor, a
fortiori, any sanitizer comment). -/
theorem parseAliasedLine_slash (t : List Char) :
    parseAliasedLine ('/' :: t) = none := by
  have hi : "import".data = 'i' :: "mport".data := rfl
  simp only [parseAliasedLine, parseWsImport, List.takeWhile_cons,
    List.dropWhile_cons, hi, expectLit]
  rw [if_neg (by decide)]

theorem parseAliasedLine_removalComment {ws : List Char}
    (hws : ∀ d ∈ ws, jsSpace d = true) (p : List Char) :
    parseAliasedLine (removalComment ws p) = none := by
  have he : removalComment ws p =
      ws ++ '/' :: ("/ IMPORT REMOVED BY SENTRY SANITIZER: ".data ++ p) := by
    simp [removalComment]
  rw [he, parseAliasedLine_ws_append hws (by decide), parseAliasedLine_slash]
  rfl

theorem parseAliasedLine_mockImportLine {ws mock : List Char}
    (hws : ∀ d ∈ ws, jsSpace d = true)
    (hm : mock = "mocks/Ownable.sol".data ∨ mock = "mocks/IERC20.sol".data ∨
      mock = "mocks/ERC20.sol".data) :
    parseAliasedLine (mockImportLine ws mock) = none := by
  have he : mockImportLine ws mock =
      ws ++ 'i' :: ("mport \"".data ++ mock ++ "\";".data) := by
    simp [mockImportLine]
  rw [he, parseAliasedLine_ws_append hws (by decide)]
  rcases hm with h | h | h <;> subst h
  · have hx : parseAliasedLine
        ('i' :: ("mport \"".data ++ "mocks/Ownable.sol".data ++
          "\";".data)) = none := by decide
    rw [hx]
    rfl
  · have hx : parseAliasedLine
        ('i' :: ("mport \"".data ++ "mocks/IERC20.sol".data ++
          "\";".data)) = none := by decide
    rw [hx]
    rfl
  · have hx : parseAliasedLine
        ('i' :: ("mport \"".data ++ "mocks/ERC20.sol".data ++
          "\";".data)) = none := by decide
    rw [hx]
    rfl

/-- Pass 1 never creates or destroys an aliased-import line: on every
line the aliased pattern matches the rewritten line exactly as it
matched the original. -/
theorem parseAliasedLine_processPlain (l : List Char) :
    parseAliasedLine ((processPlainLine l).1) = parseAliasedLine l := by
  rcases hp : parseImportLine l with _ | ⟨ws, p⟩
  · simp only [processPlainLine, hp]
  · obtain ⟨hwsSp, _, _⟩ := parseImportLine_mem hp
    rcases hw : whitelistLookup p with _ | mock
    · simp only [processPlainLine, hp, hw]
      rw [parseAliasedLine_removalComment hwsSp,
        parseAliasedLine_eq_none_of_plain hp]
    · simp only [processPlainLine, hp, hw]
      rw [parseAliasedLine_mockImportLine hwsSp (whitelistLookup_mem_mocks hw),
        parseAliasedLine_eq_none_of_plain hp]

/-! ## Line-restricted sanitizer: line-structure lemmas -/

theorem splitLines_mem_noNl {cs : List Char} :
    ∀ l ∈ splitLines cs, ∀ c ∈ l, c ≠ '\n' := by
  induction cs with
  | nil =>
    intro l hl
    simp only [splitLines, List.mem_singleton] at hl
    subst hl
    simp
  | cons c cs ih =>
    intro l hl
    simp only [splitLines] at hl
    split at hl
    · rcases List.mem_cons.mp hl with h | h
      · subst h; simp
      · exact ih l h
    · rename_i hc
      split at hl
      · rcases List.mem_singleton.mp hl with rfl
        intro d hd
        rcases List.mem_singleton.mp hd with rfl
        exact hc
      · rename_i l0 ls0 heq
        rcases List.mem_cons.mp hl with h | h
        · subst h
          intro d hd
          rcases List.mem_cons.mp hd with rfl | hd
          · exact hc
          · exact ih l0 (heq ▸ List.mem_cons_self l0 ls0) d hd
        · exact ih l (heq ▸ List.mem_cons_of_mem l0 h)

theorem processPlainLine_noNl {l : List Char} (h : ∀ c ∈ l, c ≠ '\n') :
    ∀ c ∈ (processPlainLine l).1, c ≠ '\n' := by
  rcases hp : parseImportLine l with _ | ⟨ws, p⟩
  · simpa [processPlainLine, hp] using h
  · obtain ⟨_, hwsMem, hpMem⟩ := parseImportLine_mem hp
    have hconst : ∀ c ∈ "// IMPORT REMOVED BY SENTRY SANITIZER: ".data,
        c ≠ '\n' := by decide
    rcases hw : whitelistLookup p with _ | mock
    · simp only [processPlainLine, hp, hw]
      intro c hc
      simp only [removalComment, List.append_assoc, List.mem_append] at hc
      rcases hc with hc | hc | hc
      · exact h c (hwsMem c hc)
      · exact hconst c hc
      · exact h c (hpMem c hc)
    · simp only [processPlainLine, hp, hw]
      have h1 : ∀ x ∈ "import \"".data, x ≠ '\n' := by decide
      have h2 : ∀ x ∈ "\";".data, x ≠ '\n' := by decide
      have h3 : ∀ x ∈ mock, x ≠ '\n' := by
        rcases whitelistLookup_mem_mocks hw with hm | hm | hm <;>
          subst hm <;> decide
      intro c hc
      simp only [mockImportLine, List.append_assoc, List.mem_append] at hc
      rcases hc with hc | hc | hc | hc
      · exact h c (hwsMem c hc)
      · exact h1 c hc
      · exact h3 c hc
      · exact h2 c hc

theorem processAliasedLine_noNl {l : List Char} (h : ∀ c ∈ l, c ≠ '\n') :
    ∀ c ∈ (processAliasedLine l).1, c ≠ '\n' := by
  rcases hp : parseAliasedLine l with _ | ⟨ws, p⟩
  · simpa [processAliasedLine, hp] using h
  · obtain ⟨_, hwsMem, hpMem⟩ := parseAliasedLine_mem hp
    have hconst : ∀ c ∈ "// IMPORT REMOVED BY SENTRY SANITIZER: ".data,
        c ≠ '\n' := by decide
    rcases hw : whitelistLookup p with _ | mock
    · simp only [processAliasedLine, hp, hw]
      intro c hc
      simp only [removalComment, List.append_assoc, List.mem_append] at hc
      rcases hc with hc | hc | hc
      · exact h c (hwsMem c hc)
      · exact hconst c hc
      · exact h c (hpMem c hc)
    · simp only [processAliasedLine, hp, hw]
      have h1 : ∀ x ∈ "import \"".data, x ≠ '\n' := by decide
      have h2 : ∀ x ∈ "\";".data, x ≠ '\n' := by decide
      have h3 : ∀ x ∈ mock, x ≠ '\n' := by
        rcases whitelistLookup_mem_mocks hw with hm | hm | hm <;>
          subst hm <;> decide
      intro c hc
      simp only [mockImportLine, List.append_assoc, List.mem_append] at hc
      rcases hc with hc | hc | hc | hc
      · exact h c (hwsMem c hc)
      · exact h1 c hc
      · exact h3 c hc
      · exact h2 c hc

theorem splitLines_noNl_eq {l : List Char} (h : ∀ c ∈ l, c ≠ '\n') :
    splitLines l = [l] := by
  induction l with
  | nil => rfl
  | cons c cs ih =>
    have hc : c ≠ '\n' := h c (List.mem_cons_self c cs)
    simp only [splitLines, if_neg hc]
    rw [ih (fun d hd => h d (List.mem_cons_of_mem c hd))]

theorem splitLines_append_newline {l : List Char}
    (h : ∀ c ∈ l, c ≠ '\n') (t : List Char) :
    splitLines (l ++ '\n' :: t) = l :: splitLines t := by
  induction l with
  | nil => simp [splitLines]
  | cons c cs ih =>
    have hc : c ≠ '\n' := h c (List.mem_cons_self c cs)
    simp only [List.cons_append, splitLines, if_neg hc, List.append_eq]
    rw [ih (fun d hd => h d (List.mem_cons_of_mem c hd))]

theorem splitLines_joinLines {ls : List (List Char)} (hne : ls ≠ [])
    (h : ∀ l ∈ ls, ∀ c ∈ l, c ≠ '\n') : splitLines (joinLines ls) = ls := by
  induction ls with
  | nil => exact absurd rfl hne
  | cons l ls ih =>
    cases ls with
    | nil =>
      simp only [joinLines]
      exact splitLines_noNl_eq (h l (List.mem_cons_self l []))
    | cons l2 ls2 =>
      simp only [joinLines]
      rw [splitLines_append_newline (h l (List.mem_cons_self l (l2 :: ls2)))]
      rw [ih (by simp) (fun l' hl' => h l' (List.mem_cons_of_mem l hl'))]

/-! ## Line-restricted sanitizer: per-line accounting -/

/-- The input line is a plain import whose path is whitelisted. -/
def isPlainWhitelisted (l : List Char) : Bool :=
  match parseImportLine l with
  | some (_, p) => (whitelistLookup p).isSome
  | none => false

/-- The input line is a plain import whose path matches no pattern. -/
def isPlainRemoved (l : List Char) : Bool :=
  match parseImportLine l with
  | some (_, p) => (whitelistLookup p).isNone
  | none => false

/-- The input line is an aliased import whose path is whitelisted. -/
def isAliasedWhitelisted (l : List Char) : Bool :=
  match parseAliasedLine l with
  | some (_, p) => (whitelistLookup p).isSome
  | none => false

/-- The input line is an aliased import whose path matches no
pattern. -/
def isAliasedRemoved (l : List Char) : Bool :=
  match parseAliasedLine l with
  | some (_, p) => (whitelistLookup p).isNone
  | none => false

theorem flatten_length_countP {α β : Type} (hfn : α → List β)
    (q : α → Bool) (hl : ∀ a, (hfn a).length = if q a then 1 else 0) :
    ∀ ls : List α, ((ls.map hfn).flatten).length = ls.countP q := by
  intro ls
  induction ls with
  | nil => rfl
  | cons a as ih =>
    simp only [List.map_cons, List.flatten_cons, List.length_append, ih,
      List.countP_cons, hl a]
    rcases hq : q a <;> simp
    omega

theorem processPlainLine_remap_length (l : List Char) :
    ((processPlainLine l).2.1).length =
      if isPlainWhitelisted l then 1 else 0 := by
  simp only [processPlainLine, isPlainWhitelisted]
  split
  · rename_i hp
    simp [hp]
  · rename_i ws p hp
    simp only [hp]
    rcases hw : whitelistLookup p with _ | mock <;> simp [hw]

theorem processPlainLine_removed_length (l : List Char) :
    ((processPlainLine l).2.2).length =
      if isPlainRemoved l then 1 else 0 := by
  simp only [processPlainLine, isPlainRemoved]
  split
  · rename_i hp
    simp [hp]
  · rename_i ws p hp
    simp only [hp]
    rcases hw : whitelistLookup p with _ | mock <;> simp [hw]

theorem processAliasedLine_remap_length (l : List Char) :
    ((processAliasedLine l).2.1).length =
      if isAliasedWhitelisted l then 1 else 0 := by
  simp only [processAliasedLine, isAliasedWhitelisted]
  split
  · rename_i hp
    simp [hp]
  · rename_i ws p hp
    simp only [hp]
    rcases hw : whitelistLookup p with _ | mock <;> simp [hw]

theorem processAliasedLine_removed_length (l : List Char) :
    ((processAliasedLine l).2.2).length =
      if isAliasedRemoved l then 1 else 0 := by
  simp only [processAliasedLine, isAliasedRemoved]
  split
  · rename_i hp
    simp [hp]
  · rename_i ws p hp
    simp only [hp]
    rcases hw : whitelistLookup p with _ | mock <;> simp [hw]

theorem isAliasedWhitelisted_processPlain (l : List Char) :
    isAliasedWhitelisted ((processPlainLine l).1) = isAliasedWhitelisted l := by
  simp only [isAliasedWhitelisted, parseAliasedLine_processPlain]

theorem isAliasedRemoved_processPlain (l : List Char) :
    isAliasedRemoved ((processPlainLine l).1) = isAliasedRemoved l := by
  simp only [isAliasedRemoved, parseAliasedLine_processPlain]

theorem getD_map_of_lt {α β : Type} (f : α → β) (l : List α) {i : Nat}
    (h : i < l.length) (d : β) (d' : α) :
    (l.map f).getD i d = f (l.getD i d') := by
  rw [List.getD_eq_getElem?_getD, List.getD_eq_getElem?_getD,
    List.getElem?_map, List.getElem?_eq_getElem h]
  rfl

/-! ## Claim C4

The claim's line-count clause is settled on the full-semantics model
`sanitizeImportsJS`: a match may span line breaks (JS `\s` matches
`'\n'`), and such a match collapses all its lines into the single
replacement line, so the per-line accounting above holds of the
line-restricted model only.  The lemmas below characterise the
faithful scanner: per-match accounting, in-place commenting, and
newline-count preservation exactly when no match contains a
newline. -/

/-- Splitting `splitAtLastNl` is a decomposition of its input. -/
theorem splitAtLastNl_append {w pre post : List Char}
    (h : splitAtLastNl w = some (pre, post)) : pre ++ post = w := by
  induction w generalizing pre post with
  | nil => cases h
  | cons c cs ih =>
    simp only [splitAtLastNl] at h
    split at h
    · rename_i pr po hsp
      simp only [Option.some.injEq, Prod.mk.injEq] at h
      obtain ⟨h1, h2⟩ := h
      subst h1
      subst h2
      simp [ih hsp]
    · split at h
      · simp only [Option.some.injEq, Prod.mk.injEq] at h
        obtain ⟨h1, h2⟩ := h
        subst h1
        subst h2
        rfl
      · cases h

/-- A consumed literal is a prefix of the input. -/
theorem expectLit_append {lit r rest : List Char}
    (h : expectLit lit r = some rest) : lit ++ rest = r := by
  induction lit generalizing r with
  | nil =>
    simp only [expectLit, Option.some.injEq] at h
    subst h
    rfl
  | cons a as ih =>
    cases r with
    | nil => cases h
    | cons b bs =>
      simp only [expectLit] at h
      split at h
      · rename_i hab
        have hab' : a = b := by simpa using hab
        subst hab'
        simp [ih h]
      · cases h

/-- The quoted-path component decomposes its input. -/
theorem reQuoted_append {r : List Char} {q1 q2 : Char} {p rest : List Char}
    (h : reQuoted r = some (q1, p, q2, rest)) :
    (q1 :: p) ++ (q2 :: rest) = r := by
  cases r with
  | nil => cases h
  | cons q r1 =>
    simp only [reQuoted] at h
    split at h
    · split at h
      · cases h
      · rename_i q2' r3 heq
        split at h
        · cases h
        · simp only [Option.some.injEq, Prod.mk.injEq] at h
          obtain ⟨h1, h2, h3, h4⟩ := h
          subst h1
          subst h2
          subst h3
          subst h4
          have hs : r1.takeWhile (fun c => !isQuote c) ++
              r1.dropWhile (fun c => !isQuote c) = r1 :=
            List.takeWhile_append_dropWhile _ _
          rw [heq] at hs
          simpa using hs
    · cases h

/-- The braces clause decomposes its input. -/
theorem reBraces_append {r consumed rest : List Char}
    (h : reBraces r = some (consumed, rest)) : consumed ++ rest = r := by
  simp only [reBraces] at h
  split at h
  · rename_i r1
    split at h
    · rename_i r3 heq
      split at h
      · cases h
      · split at h
        · cases h
        · rename_i r5 heq5
          split at h
          · cases h
          · simp only [Option.some.injEq, Prod.mk.injEq] at h
            obtain ⟨h1, h2⟩ := h
            subst h1
            subst h2
            have e1 : r1.takeWhile (fun c => c ≠ '}') ++ ('}' :: r3) = r1 := by
              rw [← heq]
              exact List.takeWhile_append_dropWhile _ _
            have e2 : r3.takeWhile jsSpace ++ r3.dropWhile jsSpace = r3 :=
              List.takeWhile_append_dropWhile _ _
            have e3 : "from".data ++ r5 = r3.dropWhile jsSpace :=
              expectLit_append heq5
            have e4 : r5.takeWhile jsSpace ++ r5.dropWhile jsSpace = r5 :=
              List.takeWhile_append_dropWhile _ _
            conv_rhs => rw [← e1, ← e2, ← e3, ← e4]
            simp [List.append_assoc]
    · cases h
  · cases h

/-- The optional braces group decomposes its input. -/
theorem reOptionalBraces_append {r btxt rest : List Char}
    (h : reOptionalBraces r = some (btxt, rest)) : btxt ++ rest = r := by
  simp only [reOptionalBraces] at h
  split at h
  · exact reBraces_append h
  · simp only [Option.some.injEq, Prod.mk.injEq] at h
    obtain ⟨h1, h2⟩ := h
    subst h1
    subst h2
    rfl

/-- Whatever end the backtracking of `\s*;?\s*$` picks, the consumed
tail is a prefix of the input. -/
theorem reTail_append {t tl rest : List Char}
    (h : reTail t = some (tl, rest)) : tl ++ rest = t := by
  have e0 : t.takeWhile jsSpace ++ t.dropWhile jsSpace = t :=
    List.takeWhile_append_dropWhile _ _
  simp only [reTail] at h
  split at h
  · rename_i heq
    simp only [Option.some.injEq, Prod.mk.injEq] at h
    obtain ⟨h1, h2⟩ := h
    subst h1
    subst h2
    rw [heq, List.append_nil] at e0
    simpa using e0
  · rename_i r2 heq
    have e1 : r2.takeWhile jsSpace ++ r2.dropWhile jsSpace = r2 :=
      List.takeWhile_append_dropWhile _ _
    split at h
    · rename_i heq3
      simp only [Option.some.injEq, Prod.mk.injEq] at h
      obtain ⟨h1, h2⟩ := h
      subst h1
      subst h2
      rw [heq3, List.append_nil] at e1
      rw [heq] at e0
      conv_rhs => rw [← e0, ← e1]
      simp
    · split at h
      · rename_i pre post hsp
        simp only [Option.some.injEq, Prod.mk.injEq] at h
        obtain ⟨h1, h2⟩ := h
        subst h1
        subst h2
        have e2 : pre ++ post = r2.takeWhile jsSpace := splitAtLastNl_append hsp
        rw [heq] at e0
        conv_rhs => rw [← e0, ← e1, ← e2]
        simp
      · split at h
        · rename_i pre post hsp
          simp only [Option.some.injEq, Prod.mk.injEq] at h
          obtain ⟨h1, h2⟩ := h
          subst h1
          subst h2
          have e2 : pre ++ post = t.takeWhile jsSpace := splitAtLastNl_append hsp
          conv_rhs => rw [← e0, ← e2]
          simp
        · cases h
  · split at h
    · rename_i pre post hsp
      simp only [Option.some.injEq, Prod.mk.injEq] at h
      obtain ⟨h1, h2⟩ := h
      subst h1
      subst h2
      have e2 : pre ++ post = t.takeWhile jsSpace := splitAtLastNl_append hsp
      conv_rhs => rw [← e0, ← e2]
      simp
    · cases h

/-- The invariant the scanner needs from a matcher: the match splits
the subject, is nonempty, and contains both captures. -/
def MatcherInv (mh : List Char → Option (RegexMatch × List Char)) : Prop :=
  ∀ t m rest, mh t = some (m, rest) →
    m.matched ++ rest = t ∧ 0 < m.matched.length ∧
    (∀ c ∈ m.ws, c ∈ m.matched) ∧ (∀ c ∈ m.path, c ∈ m.matched)

/-- The plain-import matcher satisfies the scanner invariant. -/
theorem matchPlainHere_inv : MatcherInv matchPlainHere := by
  intro t m rest h
  simp only [matchPlainHere] at h
  split at h
  · cases h
  · rename_i r2 hel
    split at h
    · cases h
    · split at h
      · cases h
      · rename_i btxt r4 hob
        split at h
        · cases h
        · rename_i q1 p q2 r5 hq
          split at h
          · cases h
          · rename_i tl rest' htl
            simp only [Option.some.injEq, Prod.mk.injEq] at h
            obtain ⟨h1, h2⟩ := h
            subst h2
            have e1 : t.takeWhile jsSpace ++ t.dropWhile jsSpace = t :=
              List.takeWhile_append_dropWhile _ _
            have e2 : "import".data ++ r2 = t.dropWhile jsSpace :=
              expectLit_append hel
            have e3 : r2.takeWhile jsSpace ++ r2.dropWhile jsSpace = r2 :=
              List.takeWhile_append_dropWhile _ _
            have e4 : btxt ++ r4 = r2.dropWhile jsSpace :=
              reOptionalBraces_append hob
            have e5 : (q1 :: p) ++ (q2 :: r5) = r4 := reQuoted_append hq
            have e6 : tl ++ rest' = r5 := reTail_append htl
            subst h1
            refine ⟨?_, ?_, ?_, ?_⟩
            · conv_rhs => rw [← e1, ← e2, ← e3, ← e4, ← e5, ← e6]
              simp [List.append_assoc]
            · simp
            · intro c hc
              simp only [List.mem_append, List.mem_cons]
              simp only at hc
              tauto
            · intro c hc
              simp only [List.mem_append, List.mem_cons]
              simp only at hc
              tauto

/-- The aliased-import matcher satisfies the scanner invariant. -/
theorem matchAliasedHere_inv : MatcherInv matchAliasedHere := by
  intro t m rest h
  simp only [matchAliasedHere] at h
  split at h
  · cases h
  · rename_i r2 hel
    split at h
    · cases h
    · split at h
      · cases h
      · rename_i q1 p q2 r4 hq
        split at h
        · cases h
        · split at h
          · cases h
          · rename_i r6 has
            split at h
            · cases h
            · split at h
              · cases h
              · split at h
                · cases h
                · rename_i tl rest' htl
                  simp only [Option.some.injEq, Prod.mk.injEq] at h
                  obtain ⟨h1, h2⟩ := h
                  subst h2
                  have e1 : t.takeWhile jsSpace ++ t.dropWhile jsSpace = t :=
                    List.takeWhile_append_dropWhile _ _
                  have e2 : "import".data ++ r2 = t.dropWhile jsSpace :=
                    expectLit_append hel
                  have e3 : r2.takeWhile jsSpace ++ r2.dropWhile jsSpace = r2 :=
                    List.takeWhile_append_dropWhile _ _
                  have e4 : (q1 :: p) ++ (q2 :: r4) = r2.dropWhile jsSpace :=
                    reQuoted_append hq
                  have e5 : r4.takeWhile jsSpace ++ r4.dropWhile jsSpace = r4 :=
                    List.takeWhile_append_dropWhile _ _
                  have e6 : "as".data ++ r6 = r4.dropWhile jsSpace :=
                    expectLit_append has
                  have e7 : r6.takeWhile jsSpace ++ r6.dropWhile jsSpace = r6 :=
                    List.takeWhile_append_dropWhile _ _
                  have e8 : (r6.dropWhile jsSpace).takeWhile wordChar ++
                      (r6.dropWhile jsSpace).dropWhile wordChar =
                      r6.dropWhile jsSpace :=
                    List.takeWhile_append_dropWhile _ _
                  have e9 : tl ++ rest' =
                      (r6.dropWhile jsSpace).dropWhile wordChar :=
                    reTail_append htl
                  subst h1
                  refine ⟨?_, ?_, ?_, ?_⟩
                  · conv_rhs =>
                      rw [← e1, ← e2, ← e3, ← e4, ← e5, ← e6, ← e7, ← e8, ← e9]
                    simp [List.append_assoc]
                  · simp
                  · intro c hc
                    simp only [List.mem_append, List.mem_cons]
                    simp only at hc
                    tauto
                  · intro c hc
                    simp only [List.mem_append, List.mem_cons]
                    simp only at hc
                    tauto

/-- Newline counting distributes over concatenation. -/
theorem countNl_append (a b : List Char) :
    countNl (a ++ b) = countNl a + countNl b := by
  simp [countNl, List.countP_append]

/-- A newline-free string has newline count zero. -/
theorem countNl_eq_zero {l : List Char} (h : ∀ x ∈ l, x ≠ '\n') :
    countNl l = 0 := by
  simp only [countNl, List.countP_eq_zero]
  intro a ha
  simp [h a ha]

/-- The four properties of one global-replace pass, by induction on
the fuel: per-match accounting of the two entry lists, newline-count
preservation when no match contains a newline, and presence of each
removal comment in the pass output. -/
theorem scanReplaceFuel_props {mh : List Char → Option (RegexMatch × List Char)}
    (hmh : MatcherInv mh) :
    ∀ (fuel : Nat) (t : List Char) (prev : Option Char), t.length ≤ fuel →
      (scanReplaceFuel mh fuel t prev).remapped.length =
        (scanReplaceFuel mh fuel t prev).found.countP
          (fun m => (whitelistLookup m.path).isSome) ∧
      (scanReplaceFuel mh fuel t prev).removed.length =
        (scanReplaceFuel mh fuel t prev).found.countP
          (fun m => (whitelistLookup m.path).isNone) ∧
      ((∀ m ∈ (scanReplaceFuel mh fuel t prev).found, '\n' ∉ m.matched) →
        countNl (scanReplaceFuel mh fuel t prev).out = countNl t) ∧
      (∀ m ∈ (scanReplaceFuel mh fuel t prev).found,
        whitelistLookup m.path = none →
        isInfCh (removalComment m.ws m.path)
          (scanReplaceFuel mh fuel t prev).out = true) := by
  intro fuel
  induction fuel with
  | zero =>
    intro t prev hle
    have ht : t = [] := List.length_eq_zero.mp (Nat.le_zero.mp hle)
    subst ht
    refine ⟨rfl, rfl, fun _ => rfl, fun m hm => ?_⟩
    simp [scanReplaceFuel] at hm
  | succ fuel ih =>
    intro t prev hle
    cases t with
    | nil =>
      refine ⟨rfl, rfl, fun _ => rfl, fun m hm => ?_⟩
      simp [scanReplaceFuel] at hm
    | cons c cs =>
      have hcs : cs.length ≤ fuel := by
        simp only [List.length_cons] at hle
        omega
      by_cases hca : prev = none ∨ prev = some '\n'
      · cases hmm : mh (c :: cs) with
        | some pr =>
          obtain ⟨m, rest⟩ := pr
          obtain ⟨hsplit, hpos, hws, hpath⟩ := hmh _ _ _ hmm
          have hrl : rest.length ≤ fuel := by
            have hlen : (c :: cs).length = m.matched.length + rest.length := by
              rw [← hsplit, List.length_append]
            simp only [List.length_cons] at hlen hle
            omega
          obtain ⟨ih1, ih2, ih3, ih4⟩ := ih rest m.matched.getLast? hrl
          have hred : scanReplaceFuel mh (fuel + 1) (c :: cs) prev =
              ⟨(importReplacement m).1 ++
                 (scanReplaceFuel mh fuel rest m.matched.getLast?).out,
               (importReplacement m).2.1 ++
                 (scanReplaceFuel mh fuel rest m.matched.getLast?).remapped,
               (importReplacement m).2.2 ++
                 (scanReplaceFuel mh fuel rest m.matched.getLast?).removed,
               m :: (scanReplaceFuel mh fuel rest m.matched.getLast?).found⟩ := by
            simp [scanReplaceFuel, hca, hmm]
          rw [hred]
          refine ⟨?_, ?_, ?_, ?_⟩
          · rcases hwl : whitelistLookup m.path with _ | mock <;>
              simp [importReplacement, hwl, List.countP_cons, ih1]
          · rcases hwl : whitelistLookup m.path with _ | mock <;>
              simp [importReplacement, hwl, List.countP_cons, ih2]
          · intro hnl
            have hm0 : '\n' ∉ m.matched := hnl m (List.mem_cons_self _ _)
            have hns : ∀ x ∈ m.matched, x ≠ '\n' :=
              fun x hx hxe => hm0 (hxe ▸ hx)
            have hrest := ih3 (fun m' hm' => hnl m' (List.mem_cons_of_mem _ hm'))
            have hmat : countNl m.matched = 0 := countNl_eq_zero hns
            have hrep : countNl (importReplacement m).1 = 0 := by
              rcases hwl : whitelistLookup m.path with _ | mock
              · simp only [importReplacement, hwl]
                refine countNl_eq_zero ?_
                intro x hx
                simp only [removalComment, List.mem_append] at hx
                rcases hx with (hx | hx) | hx
                · exact hns x (hws x hx)
                · fin_cases hx <;> decide
                · exact hns x (hpath x hx)
              · simp only [importReplacement, hwl]
                refine countNl_eq_zero ?_
                intro x hx
                simp only [mockImportLine, List.mem_append] at hx
                rcases hx with ((hx | hx) | hx) | hx
                · exact hns x (hws x hx)
                · fin_cases hx <;> decide
                · rcases whitelistLookup_mem_mocks hwl with hmk | hmk | hmk <;>
                    · subst hmk
                      fin_cases hx <;> decide
                · fin_cases hx <;> decide
            simp only [List.cons_append] at *
            rw [countNl_append, hrep, hrest, Nat.zero_add, ← hsplit,
              countNl_append, hmat, Nat.zero_add]
          · intro m' hm' hwl'
            rcases List.mem_cons.mp hm' with hm1 | hm1
            · subst hm1
              have hrep : (importReplacement m').1 =
                  removalComment m'.ws m'.path := by
                simp [importReplacement, hwl']
              rw [hrep]
              exact isInfCh_of_isPrefCh (isPrefCh_self_append _ _)
            · exact isInfCh_append_left _ (ih4 m' hm1 hwl')
        | none =>
          obtain ⟨ih1, ih2, ih3, ih4⟩ := ih cs (some c) hcs
          have hred : scanReplaceFuel mh (fuel + 1) (c :: cs) prev =
              ⟨c :: (scanReplaceFuel mh fuel cs (some c)).out,
               (scanReplaceFuel mh fuel cs (some c)).remapped,
               (scanReplaceFuel mh fuel cs (some c)).removed,
               (scanReplaceFuel mh fuel cs (some c)).found⟩ := by
            simp [scanReplaceFuel, hca, hmm]
          rw [hred]
          refine ⟨ih1, ih2, ?_, ?_⟩
          · intro hnl
            simp only [countNl, List.countP_cons] at *
            rw [ih3 hnl]
          · intro m' hm' hwl'
            have hin := ih4 m' hm' hwl'
            simp only [isInfCh, Bool.or_eq_true]
            right
            exact hin
      · obtain ⟨ih1, ih2, ih3, ih4⟩ := ih cs (some c) hcs
        have hred : scanReplaceFuel mh (fuel + 1) (c :: cs) prev =
            ⟨c :: (scanReplaceFuel mh fuel cs (some c)).out,
             (scanReplaceFuel mh fuel cs (some c)).remapped,
             (scanReplaceFuel mh fuel cs (some c)).removed,
             (scanReplaceFuel mh fuel cs (some c)).found⟩ := by
          simp [scanReplaceFuel, hca]
        rw [hred]
        refine ⟨ih1, ih2, ?_, ?_⟩
        · intro hnl
          simp only [countNl, List.countP_cons] at *
          rw [ih3 hnl]
        · intro m' hm' hwl'
          have hin := ih4 m' hm' hwl'
          simp only [isInfCh, Bool.or_eq_true]
          right
          exact hin

/-- The pass properties, restated over `scanReplace` (definitional
unfolding of the fuel wrapper). -/
theorem scanReplace_props {mh : List Char → Option (RegexMatch × List Char)}
    (hmh : MatcherInv mh) (t : List Char) :
    (scanReplace mh t).remapped.length =
      (scanReplace mh t).found.countP
        (fun m => (whitelistLookup m.path).isSome) ∧
    (scanReplace mh t).removed.length =
      (scanReplace mh t).found.countP
        (fun m => (whitelistLookup m.path).isNone) ∧
    ((∀ m ∈ (scanReplace mh t).found, '\n' ∉ m.matched) →
      countNl (scanReplace mh t).out = countNl t) ∧
    (∀ m ∈ (scanReplace mh t).found,
      whitelistLookup m.path = none →
      isInfCh (removalComment m.ws m.path) (scanReplace mh t).out = true) :=
  scanReplaceFuel_props hmh t.length t none (le_refl _)

/-- Splitting on newlines yields one more line than there are
newlines. -/
theorem splitLines_length_countNl (s : List Char) :
    (splitLines s).length = countNl s + 1 := by
  induction s with
  | nil => rfl
  | cons c cs ih =>
    simp only [splitLines, countNl, List.countP_cons]
    by_cases hc : c = '\n'
    · subst hc
      simp only [if_pos rfl, List.length_cons]
      simp only [countNl] at ih
      simp [ih]
    · rw [if_neg hc]
      split
      · rename_i heq
        rw [heq] at ih
        simp at ih
      · rename_i l ls heq
        rw [heq] at ih
        simp only [List.length_cons] at ih ⊢
        simp only [countNl] at ih
        simp [hc, ih]

set_option maxRecDepth 8192 in
/-- C4 counterexample: under JS semantics `\s` matches `'\n'`, so the
two-line input `import⏎'x';` is ONE match of `IMPORT_PATTERN`; the
sanitizer collapses it into a single removal-comment line, so the
output has fewer lines than the input (the claimed line-count
preservation fails), while `removedImports` still records the path. -/
theorem C4_counterexample :
    (splitLines "import\n'x';".data).length = 2 ∧
    (sanitizeImportsJS "import\n'x';".data).code =
      "// IMPORT REMOVED BY SENTRY SANITIZER: x".data ∧
    (splitLines (sanitizeImportsJS "import\n'x';".data).code).length = 1 ∧
    (sanitizeImportsJS "import\n'x';".data).removedImports = ["x".data] := by
  decide

/-- C4 (amended): on the faithful model of `sanitizeImports`, (i)
`remappedImports` has exactly one entry per whitelisted import MATCH
(duplicates kept, never deduplicated) and (ii) `removedImports` one
entry per non-whitelisted match, across both passes in callback
order; (iii) each non-whitelisted plain match leaves its removal
comment in the first pass's output and (iv) each non-whitelisted
aliased match leaves its comment in the final output — replaced, not
deleted; and (v) the output has exactly as many lines as the input
PROVIDED no match spans a line break — by the counterexample, a
cross-line match breaks line-count preservation. -/
theorem C4_spec (code : List Char) :
    (sanitizeImportsJS code).remappedImports.length =
      (jsMatches code).countP (fun m => (whitelistLookup m.path).isSome) ∧
    (sanitizeImportsJS code).removedImports.length =
      (jsMatches code).countP (fun m => (whitelistLookup m.path).isNone) ∧
    (∀ m ∈ (scanReplace matchPlainHere code).found,
      whitelistLookup m.path = none →
      isInfCh (removalComment m.ws m.path)
        (scanReplace matchPlainHere code).out = true) ∧
    (∀ m ∈ (scanReplace matchAliasedHere
        (scanReplace matchPlainHere code).out).found,
      whitelistLookup m.path = none →
      isInfCh (removalComment m.ws m.path) (sanitizeImportsJS code).code = true) ∧
    ((∀ m ∈ jsMatches code, '\n' ∉ m.matched) →
      (splitLines (sanitizeImportsJS code).code).length =
        (splitLines code).length) := by
  obtain ⟨p1a, p1b, p1c, p1d⟩ := scanReplace_props matchPlainHere_inv code
  obtain ⟨p2a, p2b, p2c, p2d⟩ :=
    scanReplace_props matchAliasedHere_inv (scanReplace matchPlainHere code).out
  refine ⟨?_, ?_, ?_, ?_, ?_⟩
  · simp only [sanitizeImportsJS, jsMatches, List.length_append,
      List.countP_append]
    rw [p1a, p2a]
  · simp only [sanitizeImportsJS, jsMatches, List.length_append,
      List.countP_append]
    rw [p1b, p2b]
  · exact p1d
  · exact p2d
  · intro hnl
    have hnl1 : ∀ m ∈ (scanReplace matchPlainHere code).found,
        '\n' ∉ m.matched :=
      fun m hm => hnl m (List.mem_append_left _ hm)
    have hnl2 : ∀ m ∈ (scanReplace matchAliasedHere
        (scanReplace matchPlainHere code).out).found, '\n' ∉ m.matched :=
      fun m hm => hnl m (List.mem_append_right _ hm)
    have h1 := p1c hnl1
    have h2 := p2c hnl2
    rw [splitLines_length_countNl, splitLines_length_countNl,
      show (sanitizeImportsJS code).code =
        (scanReplace matchAliasedHere (scanReplace matchPlainHere code).out).out
        from rfl,
      h2, h1]

/-- C4 witness: on a concrete two-line input whose import match stays
inside its line, the line count is preserved. -/
theorem C4_witness :
    (splitLines (sanitizeImportsJS
        "import \"@x/t.sol\";\ncontract C \x7b \x7d".data).code).length =
      (splitLines "import \"@x/t.sol\";\ncontract C \x7b \x7d".data).length :=
  (C4_spec "import \"@x/t.sol\";\ncontract C \x7b \x7d".data).2.2.2.2 (by decide)

/-! ## Claim C5 -/

/-- C5 counterexample: a VERIFY-stage failure does not short-circuit
to ERROR.  With every earlier stage succeeding and the AI returning a
hypothesis whose target `foo()` is not a legal identifier, exploit
injection fails, `verifyHypothesis` returns an `INCONCLUSIVE` result,
and the pipeline verdict is `UNKNOWN` — not `ERROR`. -/
theorem C5_counterexample :
    (injectExploit ⟨true, "// \x7b\x7bINJECT_ATTACK_CODE\x7d\x7d".data⟩
        "Vault.sol".data
        ⟨"foo()".data, .ACCESS_CONTROL, 90, "r".data⟩).success = false ∧
    runFullPipeline
      ⟨true, true, true,
        ⟨[⟨"foo()".data, .ACCESS_CONTROL, 90, "r".data⟩], true, none⟩,
        ⟨true, "// \x7b\x7bINJECT_ATTACK_CODE\x7d\x7d".data⟩,
        .ok [] []⟩ [] = .UNKNOWN := by
  decide

/-- C5 (amended): a failing pre-flight check (toolchain, API key),
COMPILE failure or ANALYZE failure each short-circuit the pipeline to
`ERROR` (SANITIZE has no failure path); but a VERIFY-stage failure
does not produce `ERROR` — a failed exploit injection yields verdict
`UNKNOWN` via the `INCONCLUSIVE` verification result. -/
theorem C5_spec (env : PipelineEnv) (code : List Char) :
    (env.foundryAvailable = false ∨ env.compileSuccess = false ∨
      env.apiKeyConfigured = false ∨ env.analysis.success = false →
      runFullPipeline env code = .ERROR) ∧
    (∀ h rest, env.analysis.hypotheses = h :: rest →
      (injectExploit env.inject "Vault.sol".data h).success = false →
      env.foundryAvailable = true → env.compileSuccess = true →
      env.apiKeyConfigured = true → env.analysis.success = true →
      runFullPipeline env code = .UNKNOWN) := by
  constructor
  · intro h
    rcases hf : env.foundryAvailable <;>
      rcases hc : env.compileSuccess <;>
      rcases hk : env.apiKeyConfigured <;>
      rcases ha : env.analysis.success <;>
      simp_all [runFullPipeline]
  · intro h rest hhyps hinj hf hc hk ha
    simp only [runFullPipeline, hf, hc, hk, ha, hhyps, verifyHypothesis, hinj]
    simp

/-- C5 witness: a concrete pipeline run whose only failure is an
invalid injection target ends `UNKNOWN`. -/
theorem C5_witness :
    runFullPipeline
      ⟨true, true, true,
        ⟨[⟨"bad target".data, .REENTRANCY, 50, "x".data⟩], true, none⟩,
        ⟨true, []⟩, .ok [] []⟩ [] = .UNKNOWN :=
  (C5_spec
      ⟨true, true, true,
        ⟨[⟨"bad target".data, .REENTRANCY, 50, "x".data⟩], true, none⟩,
        ⟨true, []⟩, .ok [] []⟩ []).2
    ⟨"bad target".data, .REENTRANCY, 50, "x".data⟩ [] rfl (by decide)
    rfl rfl rfl rfl

/-! ## Claim C6 -/

/-- The verdict-reduction table exactly as §4.5 of the specification
states it: `VULNERABILITY_CONFIRMED → CRITICAL`,
`FALSE_POSITIVE → SECURE`, anything else → `UNKNOWN`.  (Stated from
the spec's words, for comparison with the orchestrator's code.) -/
def specFinalVerdict : Verdict → AuditVerdict
  | .VULNERABILITY_CONFIRMED => .CRITICAL
  | .FALSE_POSITIVE => .SECURE
  | _ => .UNKNOWN

/-- The verifier itself never produces the extra
`CRITICAL_VULNERABILITY_FOUND` member of the verdict union. -/
theorem runExploitTest_verdict_ne_CVF (h : VulnerabilityHypothesis)
    (e : ExecResult) :
    (runExploitTest h e).verdict ≠ .CRITICAL_VULNERABILITY_FOUND := by
  cases e with
  | ok stdout stderr =>
    simp only [runExploitTest, classifyOutput]
    split
    · simp
    · split
      · simp
      · split
        · simp
        · split <;> simp
  | thrown stdout stderr message =>
    simp only [runExploitTest, classifyThrown]
    split <;> split <;> simp

/-- C6: with the pre-flight checks, COMPILE and ANALYZE succeeding,
(i) zero hypotheses short-circuits to `SECURE` for every possible
VERIFY environment — the verdict does not depend on the injection or
test-run stage at all, which is never invoked; and (ii) with a
primary hypothesis whose injection succeeds, the final verdict is
exactly the spec's reduction of the verification verdict
(`VULNERABILITY_CONFIRMED → CRITICAL`, `FALSE_POSITIVE → SECURE`,
`INCONCLUSIVE`/`COMPILATION_FAILED → UNKNOWN`), the verifier never
yielding any other verdict. -/
theorem C6_spec (env : PipelineEnv) (code : List Char)
    (hf : env.foundryAvailable = true) (hc : env.compileSuccess = true)
    (hk : env.apiKeyConfigured = true) (ha : env.analysis.success = true) :
    (env.analysis.hypotheses = [] → ∀ inj exec,
      runFullPipeline { env with inject := inj, exec := exec } code =
        .SECURE) ∧
    (∀ h rest, env.analysis.hypotheses = h :: rest →
      (injectExploit env.inject "Vault.sol".data h).success = true →
      runFullPipeline env code =
        specFinalVerdict (runExploitTest h env.exec).verdict ∧
      (runExploitTest h env.exec).verdict ≠
        .CRITICAL_VULNERABILITY_FOUND) := by
  constructor
  · intro h0 inj exec
    simp [runFullPipeline, hf, hc, hk, ha, h0]
  · intro h rest hhyps hinj
    refine ⟨?_, runExploitTest_verdict_ne_CVF h env.exec⟩
    simp only [runFullPipeline, hf, hc, hk, ha, hhyps, verifyHypothesis,
      hinj, Bool.not_true, Bool.false_eq_true, if_false]
    rcases hv : (runExploitTest h env.exec).verdict with _ | _ | _ | _ | _
    · simp [hv, specFinalVerdict]
    · simp [hv, specFinalVerdict]
    · simp [hv, specFinalVerdict]
    · simp [hv, specFinalVerdict]
    · exact absurd hv (runExploitTest_verdict_ne_CVF h env.exec)

/-- C6 witness: a concrete zero-hypothesis run is `SECURE`. -/
theorem C6_witness :
    runFullPipeline
      ⟨true, true, true, ⟨[], true, none⟩, ⟨true, []⟩, .ok [] []⟩ [] =
      .SECURE :=
  (C6_spec
      ⟨true, true, true, ⟨[], true, none⟩, ⟨true, []⟩, .ok [] []⟩ []
      rfl rfl rfl rfl).1 rfl ⟨true, []⟩ (.ok [] [])

/-! ## Claim C7 -/

/-- A non-final model whose outcome is not a successful parse hands
control to the rest of the list, adding one request. -/
theorem analyzeOpenRouter_cons_cons (pj : List Char → Option Json)
    (o : ModelOutcome) (o2 : ModelOutcome) (rest2 : List ModelOutcome)
    (hc : ∀ c, o = .content c → (parseResponse pj c).success = false) :
    analyzeOpenRouter pj (o :: o2 :: rest2) =
      ((analyzeOpenRouter pj (o2 :: rest2)).1,
       (analyzeOpenRouter pj (o2 :: rest2)).2 + 1) := by
  cases o with
  | apiError m => rfl
  | empty => rfl
  | content c =>
    have h := hc c rfl
    simp only [analyzeOpenRouter, List.isEmpty_cons, h]
    rfl

/-- C7: the OpenRouter fallback loop.  (i) If each of the first `N-1`
models returns content failing JSON extraction or schema validation
and the `N`-th returns a schema-valid response, `analyze` returns
that last model's (successful) parse result and issues exactly `N`
requests — the loop is sequential by construction, one request per
recursion step.  (ii) If every model fails, the loop walks the whole
list (`N` requests) and only then returns `success := false`. -/
theorem C7_spec (parseJson : List Char → Option Json) :
    (∀ (bad : List ModelOutcome) (s : List Char),
      (∀ o ∈ bad, ∃ c, o = .content c ∧
        (parseResponse parseJson c).success = false) →
      (parseResponse parseJson s).success = true →
      analyzeOpenRouter parseJson (bad ++ [.content s]) =
        (parseResponse parseJson s, bad.length + 1)) ∧
    (∀ outs : List ModelOutcome, outs ≠ [] →
      (∀ o ∈ outs, ∀ c, o = .content c →
        (parseResponse parseJson c).success = false) →
      (analyzeOpenRouter parseJson outs).1.success = false ∧
      (analyzeOpenRouter parseJson outs).2 = outs.length) := by
  constructor
  · intro bad s hbad hs
    induction bad with
    | nil =>
      simp [analyzeOpenRouter, hs]
    | cons o bad' ih =>
      obtain ⟨c, rfl, hfail⟩ := hbad o (List.mem_cons_self o bad')
      have hrest := ih (fun o' ho' => hbad o' (List.mem_cons_of_mem _ ho'))
      rcases hsplit : bad' ++ [ModelOutcome.content s] with _ | ⟨y, ys⟩
      · exact absurd hsplit (by simp)
      · rw [List.cons_append, hsplit,
          analyzeOpenRouter_cons_cons _ _ _ _
            (fun c' hc' => by rw [(ModelOutcome.content.injEq _ _).mp hc'] at hfail; exact hfail),
          ← hsplit, hrest]
        simp [Nat.add_assoc]
  · intro outs hne hfail
    induction outs with
    | nil => exact absurd rfl hne
    | cons o rest ih =>
      cases rest with
      | nil =>
        cases o with
        | apiError m => simp [analyzeOpenRouter]
        | empty => simp [analyzeOpenRouter]
        | content c =>
          have hc := hfail (.content c) (List.mem_cons_self _ _) c rfl
          simp [analyzeOpenRouter, hc]
      | cons o2 rest2 =>
        have hsub := ih (by simp)
          (fun o' ho' c hc => hfail o' (List.mem_cons_of_mem _ ho') c hc)
        rw [analyzeOpenRouter_cons_cons _ _ _ _
          (fun c hc => hfail o (List.mem_cons_self _ _) c hc)]
        exact ⟨hsub.1, by simp [hsub.2]⟩

/-- C7 witness: with two configured models where the first returns
unparseable content and the second schema-valid JSON with zero
hypotheses, the loop returns the second model's success after exactly
two requests. -/
theorem C7_witness :
    analyzeOpenRouter
      (fun c => if c == "GOOD".data then
        some (Json.obj [("hypotheses".data, Json.arr [])]) else none)
      [.content "BAD".data, .content "GOOD".data] =
      ({ hypotheses := [], success := true, error := none }, 2) := by
  have h := (C7_spec
      (fun c => if c == "GOOD".data then
        some (Json.obj [("hypotheses".data, Json.arr [])]) else none)).1
    [.content "BAD".data] "GOOD".data
    (fun o ho => ⟨"BAD".data, by simpa using ho, by decide⟩)
    (by decide)
  simpa using h

/-! ## Claim C8 -/

/-- The last line of the assembled log text. -/
def lastLine (s : List Char) : List Char := (splitLines s).getLastD []

theorem getLastD_indep {α : Type} {l : List α} (h : l ≠ []) (d d' : α) :
    l.getLastD d = l.getLastD d' := by
  cases l with
  | nil => exact absurd rfl h
  | cons a l => rw [List.getLastD_cons, List.getLastD_cons]

theorem two_le_splitLines_length_append (a b : List Char) :
    2 ≤ (splitLines (a ++ '\n' :: b)).length := by
  induction a with
  | nil =>
    simp only [List.nil_append, splitLines, if_pos rfl, List.length_cons]
    have := splitLines_ne_nil b
    cases hsp : splitLines b with
    | nil => exact absurd hsp this
    | cons x xs => simp [hsp]
  | cons c a' ih =>
    by_cases hc : c = '\n'
    · subst hc
      simp only [List.cons_append, splitLines, if_pos rfl, List.length_cons]
      cases hsp : splitLines (a' ++ '\n' :: b) with
      | nil => exact absurd hsp (splitLines_ne_nil _)
      | cons x xs =>
        simp [hsp]
    · simp only [List.cons_append, splitLines, if_neg hc]
      cases hsp : splitLines (a' ++ '\n' :: b) with
      | nil => exact absurd hsp (splitLines_ne_nil _)
      | cons x xs =>
        rw [hsp] at ih
        simp only [List.length_cons] at ih ⊢
        omega

theorem lastLine_append_newline (a b : List Char) :
    lastLine (a ++ '\n' :: b) = lastLine b := by
  induction a with
  | nil =>
    simp only [List.nil_append, lastLine, splitLines, if_pos rfl]
    cases hsp : splitLines b with
    | nil => exact absurd hsp (splitLines_ne_nil b)
    | cons x xs => simp [List.getLastD_cons, getLastD_indep]
  | cons c a' ih =>
    by_cases hc : c = '\n'
    · subst hc
      simp only [List.cons_append, lastLine, splitLines, if_pos rfl] at ih ⊢
      cases hsp : splitLines (a' ++ '\n' :: b) with
      | nil => exact absurd hsp (splitLines_ne_nil _)
      | cons x xs =>
        rw [hsp] at ih
        simpa [List.getLastD_cons] using ih
    · simp only [List.cons_append, lastLine, splitLines, if_neg hc] at ih ⊢
      cases hsp : splitLines (a' ++ '\n' :: b) with
      | nil => exact absurd hsp (splitLines_ne_nil _)
      | cons x xs =>
        rw [hsp] at ih
        have hxs : xs ≠ [] := by
          have h2 := two_le_splitLines_length_append a' b
          rw [hsp] at h2
          simp only [List.length_cons] at h2
          intro hxs
          subst hxs
          simp at h2
        rw [List.getLastD_cons] at ih ⊢
        rw [← ih]
        exact getLastD_indep hxs _ _

theorem lastLine_noNl {s : List Char} (h : ∀ c ∈ s, c ≠ '\n') :
    lastLine s = s := by
  simp [lastLine, splitLines_noNl_eq h]

theorem joinLines_append_singleton {L : List (List Char)} (hne : L ≠ [])
    (x : List Char) : joinLines (L ++ [x]) = joinLines L ++ '\n' :: x := by
  induction L with
  | nil => exact absurd rfl hne
  | cons l ls ih =>
    cases ls with
    | nil => rfl
    | cons l2 ls2 =>
      simp only [List.cons_append, joinLines, List.append_eq]
      rw [← List.cons_append l2 ls2 [x], ih (by simp)]
      simp [List.append_assoc]

theorem isInfCh_mem_joinLines {x : List Char} {ls : List (List Char)}
    (h : x ∈ ls) : isInfCh x (joinLines ls) = true := by
  induction ls with
  | nil => cases h
  | cons l rest ih =>
    rcases List.mem_cons.mp h with rfl | h'
    · cases rest with
      | nil =>
        have := isPrefCh_self_append x []
        rw [List.append_nil] at this
        simpa [joinLines] using isInfCh_of_isPrefCh this
      | cons r rs =>
        simp only [joinLines]
        exact isInfCh_of_isPrefCh (isPrefCh_self_append x _)
    · cases rest with
      | nil => cases h'
      | cons r rs =>
        simp only [joinLines]
        have h2 : isInfCh x ('\n' :: joinLines (r :: rs)) = true := by
          simp [isInfCh, ih h']
        exact isInfCh_append_left l h2

/-- The logs always start with the header followed by the captured
chunks, whatever the termination. -/
theorem executeForge_logs_shape (ws cmd : List Char) (run : ForgeRun) :
    ∃ tail, (executeForge ws cmd run).logs =
      joinLines ((forgeHeader ws cmd ++ run.events.map forgeEventLog) ++ tail) := by
  cases hterm : run.term with
  | spawnError m =>
    refine ⟨["  Status: ✗ SPAWN ERROR: ".data ++ m], ?_⟩
    simp [executeForge, hterm, List.append_assoc]
  | closed code =>
    by_cases ht : run.timedOut = true
    · refine ⟨["".data,
        lightRule,
        "  Status: TIMEOUT".data], ?_⟩
      simp [executeForge, hterm, ht, List.append_assoc]
    · refine ⟨["".data,
        lightRule,
        "  Status: ".data ++ (if (code == some 0) = true then "✓ SUCCESS".data
          else "✗ FAILED".data)], ?_⟩
      simp [executeForge, hterm, ht, List.append_assoc]

/-- C8 counterexample: stderr is prefixed per captured chunk, not per
line.  For the run whose single stderr chunk is `"a\nb"`, the line
`b` appears in the logs bare — `[STDERR] b` does not — so the second
stderr line is indistinguishable from stdout by its prefix. -/
theorem C8_counterexample :
    "b".data ∈ splitLines (executeForge "W".data "forge".data
      ⟨[.errOut "a\nb".data], .closed (some 1), false⟩).logs ∧
    "[STDERR] b".data ∉ splitLines (executeForge "W".data "forge".data
      ⟨[.errOut "a\nb".data], .closed (some 1), false⟩).logs := by
  decide

/-- C8 (amended): for every run that reaches its `close` event
without the deadline firing, `success` is exactly `exit code == 0`;
every captured stdout chunk appears verbatim in `logs` and every
stderr chunk appears with a single `[STDERR] ` prefix at the start of
the chunk (lines after the first inside a multi-line chunk are not
individually prefixed); a run killed by the deadline timer reports
`success := false` with final status line `  Status: TIMEOUT`,
distinct from an ordinary build failure's `  Status: ✗ FAILED`. -/
theorem C8_spec (ws cmd : List Char) (run : ForgeRun) :
    (∀ code, run.term = .closed code → run.timedOut = false →
      (executeForge ws cmd run).success = (code == some 0)) ∧
    (∀ s, .out s ∈ run.events →
      isInfCh s (executeForge ws cmd run).logs = true) ∧
    (∀ s, .errOut s ∈ run.events →
      isInfCh ("[STDERR] ".data ++ s) (executeForge ws cmd run).logs = true) ∧
    (∀ code, run.term = .closed code → run.timedOut = true →
      (executeForge ws cmd run).success = false ∧
      lastLine (executeForge ws cmd run).logs = "  Status: TIMEOUT".data) ∧
    (∀ code, run.term = .closed code → run.timedOut = false →
      code ≠ some 0 →
      lastLine (executeForge ws cmd run).logs =
        "  Status: ✗ FAILED".data) := by
  obtain ⟨tail, htail⟩ := executeForge_logs_shape ws cmd run
  refine ⟨?_, ?_, ?_, ?_, ?_⟩
  · intro code ht htf
    simp [executeForge, ht, htf]
  · intro s hs
    rw [htail]
    apply isInfCh_mem_joinLines
    exact List.mem_append_left _
      (List.mem_append_right _ (List.mem_map_of_mem forgeEventLog hs))
  · intro s hs
    rw [htail]
    apply isInfCh_mem_joinLines
    exact List.mem_append_left _
      (List.mem_append_right _ (List.mem_map_of_mem forgeEventLog hs))
  · intro code ht htt
    have hlogs : (executeForge ws cmd run).logs =
        joinLines ((forgeHeader ws cmd ++ run.events.map forgeEventLog ++
          ["".data,
           lightRule]) ++
          ["  Status: TIMEOUT".data]) := by
      simp [executeForge, ht, htt, List.append_assoc]
    refine ⟨by simp [executeForge, ht, htt], ?_⟩
    rw [hlogs, joinLines_append_singleton (by simp),
      lastLine_append_newline]
    exact lastLine_noNl (by decide)
  · intro code ht htf hc0
    have hc0' : (code == some 0) = false := by
      simpa using hc0
    have hlogs : (executeForge ws cmd run).logs =
        joinLines ((forgeHeader ws cmd ++ run.events.map forgeEventLog ++
          ["".data,
           lightRule]) ++
          ["  Status: ".data ++ "✗ FAILED".data]) := by
      simp [executeForge, ht, htf, hc0', List.append_assoc]
    rw [hlogs, joinLines_append_singleton (by simp),
      lastLine_append_newline]
    exact lastLine_noNl (by decide)

/-- C8 witness: a concrete non-timeout failing build run has
`success = false`, its chunks verbatim in the logs, and the ordinary
failure status line. -/
theorem C8_witness :
    (executeForge "W".data "forge".data
      ⟨[.out "Compiling 1 file".data, .errOut "warning: x".data],
        .closed (some 1), false⟩).success = (some (1 : Int) == some 0) ∧
    isInfCh "Compiling 1 file".data
      (executeForge "W".data "forge".data
        ⟨[.out "Compiling 1 file".data, .errOut "warning: x".data],
          .closed (some 1), false⟩).logs = true ∧
    lastLine (executeForge "W".data "forge".data
      ⟨[.out "Compiling 1 file".data, .errOut "warning: x".data],
        .closed (some 1), false⟩).logs = "  Status: ✗ FAILED".data :=
  ⟨(C8_spec "W".data "forge".data _).1 (some 1) rfl rfl,
   (C8_spec "W".data "forge".data _).2.1 _ (by decide),
   (C8_spec "W".data "forge".data _).2.2.2.2 (some 1) rfl rfl
     (by decide)⟩

/-! ## Claim C9 -/

set_option maxRecDepth 8192 in
/-- C9 counterexample: with every toolchain probe failing,
`compileCode` still attempts the build (second component `true`): it
runs `forge build`, which then dies with a spawn error — there is no
"toolchain not found" short-circuit inside `compileCode`. -/
theorem C9_counterexample :
    (compileCode ⟨⟨false, false, false, false⟩, "W".data, none,
      ⟨[], .spawnError "spawn forge ENOENT".data, false⟩⟩).2 = true ∧
    (compileCode ⟨⟨false, false, false, false⟩, "W".data, none,
      ⟨[], .spawnError "spawn forge ENOENT".data, false⟩⟩).1.success = false ∧
    isInfCh "SPAWN ERROR".data
      (compileCode ⟨⟨false, false, false, false⟩, "W".data, none,
        ⟨[], .spawnError "spawn forge ENOENT".data, false⟩⟩).1.logs = true := by
  decide

/-- C9 (amended): when no candidate responds to the version probe,
`getForgeCommand` falls back to `forge` and `compileCode` still
attempts the build (failing only through the spawned process); the
immediate fail-fast lives in the orchestrator instead:
`isFoundryAvailable` is `false` and `runFullPipeline` returns `ERROR`
before invoking the compiler. -/
theorem C9_spec (e : ProbeEnv)
    (h1 : e.forgeOnPath = false)
    (h2 : (e.isWin32 && e.wslForge) = false)
    (h3 : (e.isWin32 && e.wslPathForge) = false) :
    getForgeCommand e = "forge".data ∧
    isFoundryAvailable e = false ∧
    (∀ wsDir run, (compileCode ⟨e, wsDir, none, run⟩).2 = true) ∧
    (∀ (env : PipelineEnv) (code : List Char),
      env.foundryAvailable = isFoundryAvailable e →
      runFullPipeline env code = .ERROR) := by
  have hfa : isFoundryAvailable e = false := by
    simp [isFoundryAvailable, h1, h2, h3]
  refine ⟨by simp [getForgeCommand, h1, h2, h3], hfa, ?_, ?_⟩
  · intro wsDir run
    rfl
  · intro env code henv
    rw [hfa] at henv
    simp [runFullPipeline, henv]

/-- C9 witness: a win32 host with no working probe: the command
defaults to `forge`, the availability check is negative, and the
pipeline fails fast with `ERROR`. -/
theorem C9_witness :
    getForgeCommand ⟨false, true, false, false⟩ = "forge".data ∧
    runFullPipeline
      ⟨false, true, true, ⟨[], true, none⟩, ⟨true, []⟩, .ok [] []⟩ [] =
      .ERROR :=
  ⟨(C9_spec ⟨false, true, false, false⟩ rfl (by decide) (by decide)).1,
   (C9_spec ⟨false, true, false, false⟩ rfl (by decide) (by decide)).2.2.2
     ⟨false, true, true, ⟨[], true, none⟩, ⟨true, []⟩, .ok [] []⟩ []
     (by decide)⟩

/-! ## Claim C10 -/

/-- Once the pattern occurs, the first-occurrence replacement has a
fixed prefix and suffix independent of the replacement text, and the
replacement enters through `getSubstitution` evaluated in that fixed
context (worker version, for any scanned prefix `seen`). -/
theorem replaceOnceSubstAux_decomp {pat l : List Char} (hne : pat ≠ [])
    (h : isInfCh pat l = true) :
    ∃ A B, ∀ seen r, replaceOnceSubstAux pat r seen l =
      A ++ getSubstitution pat (seen.reverse ++ A) B r ++ B := by
  induction l with
  | nil =>
    exfalso
    cases pat with
    | nil => exact hne rfl
    | cons a as => simp [isInfCh, isPrefCh] at h
  | cons c cs ih =>
    by_cases hp : isPrefCh pat (c :: cs) = true
    · refine ⟨[], (c :: cs).drop pat.length, fun seen r => ?_⟩
      simp [replaceOnceSubstAux, hp]
    · have h' : isInfCh pat cs = true := by
        simp only [isInfCh, Bool.or_eq_true] at h
        rcases h with h | h
        · exact absurd h hp
        · exact h
      obtain ⟨A, B, hAB⟩ := ih h'
      refine ⟨c :: A, B, fun seen r => ?_⟩
      have hstep : replaceOnceSubstAux pat r seen (c :: cs) =
          c :: replaceOnceSubstAux pat r (c :: seen) cs := by
        simp [replaceOnceSubstAux, hp]
      rw [hstep, hAB (c :: seen) r]
      simp [List.reverse_cons, List.append_assoc]

/-- Once the pattern occurs, `replaceOnceSubst` splices the
`$`-substituted replacement between a fixed prefix and suffix. -/
theorem replaceOnceSubst_decomp {pat l : List Char} (hne : pat ≠ [])
    (h : isInfCh pat l = true) :
    ∃ A B, ∀ r, replaceOnceSubst pat r l =
      A ++ getSubstitution pat A B r ++ B := by
  obtain ⟨A, B, hAB⟩ := replaceOnceSubstAux_decomp hne h
  refine ⟨A, B, fun r => ?_⟩
  have := hAB [] r
  simpa [replaceOnceSubst] using this

/-- A replacement containing no `'$'` is spliced verbatim by
`getSubstitution`. -/
theorem getSubstitution_of_no_dollar (m a b : List Char) {r : List Char}
    (h : ∀ c ∈ r, c ≠ '$') : getSubstitution m a b r = r := by
  induction r with
  | nil => rfl
  | cons c rest ih =>
    have hc : ¬(c = '$') := h c (List.mem_cons_self c rest)
    rw [getSubstitution.eq_def]
    simp only [if_neg hc]
    exact congrArg (List.cons c) (ih fun d hd => h d (List.mem_cons_of_mem c hd))

/-- Closure of `'$'`-freeness under concatenation. -/
theorem no_dollar_append {x y : List Char} (hx : ∀ c ∈ x, c ≠ '$')
    (hy : ∀ c ∈ y, c ≠ '$') : ∀ c ∈ x ++ y, c ≠ '$' := by
  intro c hc
  rcases List.mem_append.mp hc with hm | hm
  · exact hx c hm
  · exact hy c hm

/-- Decimal digits are not `'$'`. -/
theorem digitChar_ne_dollar {k : Nat} (hk : k < 10) : digitChar k ≠ '$' := by
  interval_cases k <;> decide

/-- The digit accumulator never introduces `'$'`. -/
theorem natDigitsAux_no_dollar :
    ∀ (fuel n : Nat) (acc : List Char), (∀ c ∈ acc, c ≠ '$') →
      ∀ c ∈ natDigitsAux fuel n acc, c ≠ '$' := by
  intro fuel
  induction fuel with
  | zero => intro n acc hacc c hc; exact hacc c hc
  | succ fuel ih =>
    intro n acc hacc c hc
    simp only [natDigitsAux] at hc
    by_cases hn : n < 10
    · rw [if_pos hn] at hc
      rcases List.mem_cons.mp hc with h1 | h1
      · rw [h1]; exact digitChar_ne_dollar hn
      · exact hacc c h1
    · rw [if_neg hn] at hc
      refine ih (n / 10) _ ?_ c hc
      intro d hd
      rcases List.mem_cons.mp hd with h1 | h1
      · rw [h1]; exact digitChar_ne_dollar (Nat.mod_lt _ (by norm_num))
      · exact hacc d h1

/-- Rendered numbers contain no `'$'`. -/
theorem intToStr_no_dollar (i : Int) : ∀ c ∈ intToStr i, c ≠ '$' := by
  intro c hc
  simp only [intToStr] at hc
  by_cases hi : i < 0
  · rw [if_pos hi] at hc
    rcases List.mem_cons.mp hc with h1 | h1
    · rw [h1]; decide
    · exact natDigitsAux_no_dollar _ _ _ (by intro d hd; simp at hd) c h1
  · rw [if_neg hi] at hc
    exact natDigitsAux_no_dollar _ _ _ (by intro d hd; simp at hd) c hc

/-- A string accepted by the identifier regex contains no `'$'`
(`$` is in neither `[a-zA-Z_]` nor `[a-zA-Z0-9_]`). -/
theorem validFunctionNameRe_no_dollar {s : List Char}
    (h : validFunctionNameRe s = true) : ∀ c ∈ s, c ≠ '$' := by
  cases s with
  | nil => intro c hc; simp at hc
  | cons a as =>
    simp only [validFunctionNameRe, Bool.and_eq_true, Bool.or_eq_true,
      List.all_eq_true] at h
    intro c hc hq
    subst hq
    rcases List.mem_cons.mp hc with h1 | h1
    · rw [← h1] at h
      exact absurd h.1 (by decide)
    · exact absurd (h.2 '$' h1) (by decide)

set_option maxRecDepth 8192 in
/-- For an `ACCESS_CONTROL` hypothesis with a validated target and a
`'$'`-free reasoning, the whole rendered snippet is `'$'`-free: every
other atom of the template literal (fixed text, the identifier-checked
target, the type name, the decimal confidence) cannot contain `'$'`. -/
theorem generateExploitCode_no_dollar {h : VulnerabilityHypothesis}
    (hty : h.vulnerabilityType = .ACCESS_CONTROL)
    (hv : isValidFunctionName h.target = true)
    (hr : ∀ c ∈ h.reasoning, c ≠ '$') :
    ∀ c ∈ generateExploitCode h, c ≠ '$' := by
  have htgt : ∀ c ∈ trimCh h.target, c ≠ '$' := by
    apply validFunctionNameRe_no_dollar
    simp only [isValidFunctionName, Bool.and_eq_true] at hv
    exact hv.2
  have hvts : ∀ c ∈ vulnTypeStr .ACCESS_CONTROL, c ≠ '$' := by decide
  simp only [generateExploitCode, hty]
  refine no_dollar_append
    (no_dollar_append
      (no_dollar_append
        (no_dollar_append
          (no_dollar_append
            (no_dollar_append
              (no_dollar_append
                (no_dollar_append
                  (no_dollar_append (no_dollar_append (by decide) htgt)
                    (by decide))
                  hvts)
                (by decide))
              (intToStr_no_dollar _))
            (by decide))
          hr)
        (by decide))
      htgt)
    (by decide)

set_option maxRecDepth 8192 in
/-- C10 counterexample: the rendered harness does not embed
`reasoning` for every accepted hypothesis.  Two accepted `REENTRANCY`
hypotheses agreeing on target, type, confidence and file name but
with different reasoning produce byte-identical harness files. -/
theorem C10_counterexample :
    (injectExploit
      ⟨true, "line1\n// \x7b\x7bINJECT_ATTACK_CODE\x7d\x7d\nline3".data⟩
      "Vault.sol".data
      ⟨"withdraw".data, .REENTRANCY, 80, "A".data⟩).success = true ∧
    (injectExploit
      ⟨true, "line1\n// \x7b\x7bINJECT_ATTACK_CODE\x7d\x7d\nline3".data⟩
      "Vault.sol".data
      ⟨"withdraw".data, .REENTRANCY, 80, "B".data⟩).success = true ∧
    ("A".data : List Char) ≠ "B".data ∧
    (injectExploit
      ⟨true, "line1\n// \x7b\x7bINJECT_ATTACK_CODE\x7d\x7d\nline3".data⟩
      "Vault.sol".data
      ⟨"withdraw".data, .REENTRANCY, 80, "A".data⟩).written =
    (injectExploit
      ⟨true, "line1\n// \x7b\x7bINJECT_ATTACK_CODE\x7d\x7d\nline3".data⟩
      "Vault.sol".data
      ⟨"withdraw".data, .REENTRANCY, 80, "B".data⟩).written := by
  decide

set_option maxRecDepth 8192 in
/-- C10 (amended): the harness is not a function of the validated
fields alone, but only `ACCESS_CONTROL` hypotheses embed `reasoning`,
and the snippet reaches the file through `String.replace`'s
`$`-substitution.  For an `ACCESS_CONTROL` hypothesis the generated
snippet embeds the AI-controlled `reasoning` and `confidence` verbatim
(unescaped); injection acceptance depends only on the `target` field;
and two such hypotheses agreeing on target, type, confidence and file
name but differing in reasoning render different harness file contents
provided neither reasoning contains `'$'`.  That proviso is necessary:
the final conjunct shows the substitution step renders the reasonings
`$$` and `$` as byte-identical files, and for `REENTRANCY` and other
types the reasoning is dropped entirely (see the counterexample). -/
theorem C10_spec (env : InjectEnv) (f : List Char)
    (h h' : VulnerabilityHypothesis)
    (hex : env.templateExists = true)
    (hmk0 : isInfCh INJECTION_MARKER env.template = true)
    (hmk : isInfCh INJECTION_MARKER (transformHarness env.template f) = true)
    (hty : h.vulnerabilityType = .ACCESS_CONTROL)
    (hty' : h'.vulnerabilityType = .ACCESS_CONTROL)
    (htg : h'.target = h.target) (hcf : h'.confidence = h.confidence)
    (hv : isValidFunctionName h.target = true)
    (hd : ∀ c ∈ h.reasoning, c ≠ '$')
    (hd' : ∀ c ∈ h'.reasoning, c ≠ '$') :
    isInfCh h.reasoning (generateExploitCode h) = true ∧
    isInfCh (intToStr h.confidence) (generateExploitCode h) = true ∧
    (∀ h2 : VulnerabilityHypothesis, h2.target = h.target →
      (injectExploit env f h2).success = true) ∧
    (h.reasoning ≠ h'.reasoning →
      (injectExploit env f h).written ≠ (injectExploit env f h').written) ∧
    ((injectExploit
        ⟨true, "head\n// \x7b\x7bINJECT_ATTACK_CODE\x7d\x7d\ntail".data⟩
        "Vault.sol".data
        ⟨"withdraw".data, .ACCESS_CONTROL, 91, "$$".data⟩).written =
      (injectExploit
        ⟨true, "head\n// \x7b\x7bINJECT_ATTACK_CODE\x7d\x7d\ntail".data⟩
        "Vault.sol".data
        ⟨"withdraw".data, .ACCESS_CONTROL, 91, "$".data⟩).written ∧
      ("$$".data : List Char) ≠ "$".data) := by
  refine ⟨?_, ?_, ?_, ?_, ?_⟩
  · simp only [generateExploitCode, hty, List.append_assoc]
    apply isInfCh_append_left
    apply isInfCh_append_left
    apply isInfCh_append_left
    apply isInfCh_append_left
    apply isInfCh_append_left
    apply isInfCh_append_left
    apply isInfCh_append_left
    exact isInfCh_of_isPrefCh (isPrefCh_self_append _ _)
  · simp only [generateExploitCode, hty, List.append_assoc]
    apply isInfCh_append_left
    apply isInfCh_append_left
    apply isInfCh_append_left
    apply isInfCh_append_left
    apply isInfCh_append_left
    exact isInfCh_of_isPrefCh (isPrefCh_self_append _ _)
  · intro h2 htg2
    simp [injectExploit, htg2, hv, hex, hmk0]
  · intro hne hwr
    have hv' : isValidFunctionName h'.target = true := by rw [htg]; exact hv
    have hw1 : (injectExploit env f h).written =
        some (replaceOnceSubst INJECTION_MARKER (generateExploitCode h)
          (transformHarness env.template f)) := by
      simp [injectExploit, hv, hex, hmk0]
    have hw2 : (injectExploit env f h').written =
        some (replaceOnceSubst INJECTION_MARKER (generateExploitCode h')
          (transformHarness env.template f)) := by
      simp [injectExploit, hv', hex, hmk0]
    rw [hw1, hw2] at hwr
    obtain ⟨A, B, hAB⟩ := replaceOnceSubst_decomp (by decide) hmk
    rw [hAB, hAB, Option.some.injEq,
      getSubstitution_of_no_dollar INJECTION_MARKER A B
        (generateExploitCode_no_dollar hty hv hd),
      getSubstitution_of_no_dollar INJECTION_MARKER A B
        (generateExploitCode_no_dollar hty' hv' hd')] at hwr
    have h1 : A ++ generateExploitCode h = A ++ generateExploitCode h' :=
      List.append_cancel_right hwr
    have hgen : generateExploitCode h = generateExploitCode h' :=
      List.append_cancel_left h1
    apply hne
    simp only [generateExploitCode, hty, hty', htg, hcf] at hgen
    have s1 := List.append_cancel_right hgen
    have s2 := List.append_cancel_right s1
    have s3 := List.append_cancel_right s2
    exact List.append_cancel_left s3
  · exact ⟨by decide, by decide⟩

set_option maxRecDepth 8192 in
/-- C10 witness: two concrete accepted `ACCESS_CONTROL` hypotheses with
`'$'`-free reasonings differing only in that reasoning produce
different harness contents. -/
theorem C10_witness :
    (injectExploit
      ⟨true, "head\n// \x7b\x7bINJECT_ATTACK_CODE\x7d\x7d\ntail".data⟩
      "Vault.sol".data
      ⟨"withdraw".data, .ACCESS_CONTROL, 91, "first".data⟩).written ≠
    (injectExploit
      ⟨true, "head\n// \x7b\x7bINJECT_ATTACK_CODE\x7d\x7d\ntail".data⟩
      "Vault.sol".data
      ⟨"withdraw".data, .ACCESS_CONTROL, 91, "second".data⟩).written :=
  (C10_spec
    ⟨true, "head\n// \x7b\x7bINJECT_ATTACK_CODE\x7d\x7d\ntail".data⟩
    "Vault.sol".data
    ⟨"withdraw".data, .ACCESS_CONTROL, 91, "first".data⟩
    ⟨"withdraw".data, .ACCESS_CONTROL, 91, "second".data⟩
    rfl (by decide) (by decide) rfl rfl rfl rfl (by decide)
    (by decide) (by decide)).2.2.2.1
    (by decide)

end SENTRY
